import Mathlib

/-!
# Verification of the django-components client-side dependency manager

Shallow embedding of `src/django_components_js/src/manager.ts`
(`createComponentsManager`).  The embedding is split into:

* an **asset model** (`loadedJs` / `loadedCss` sets, the `pendingScripts`
  waiter map, `loadJs`, `loadCss`, `markScriptLoaded`, `isScriptLoaded`,
  `waitForScriptsToLoad`);
* a **scheduler model** (the pending-call queue, the promise-completion
  ledger, `_isCallBlocked`, `_processPendingCalls`, `registerComponent`,
  `registerComponentData`, `queueComponentCall`, `callUnblockedComponent`),
  together with an event-level operational semantics (`runEvents`) whose
  events are the entry points of the manager plus the settlement of a
  pending call's wait-promise;
* a **heap model** of `callUnblockedComponent` instrumenting object
  identity, used for the data-freshness / shared-data-object properties.

JS `Map` / plain-object registries are modelled as association lists with
overwrite-on-set semantics; JS `Set` as duplicate-free insertion lists;
promises handed to callers are modelled by identity (an index into a
status table), since the code itself never introspects a promise and
instead records settlements in explicit tables.
-/

namespace DjcManager

/-! ## Association-list helpers (JS `Map` / plain-object registries) -/

/-- Lookup in an association list; mirrors `Map.get` / property access. -/
def alGet {κ α : Type} [BEq κ] (m : List (κ × α)) (k : κ) : Option α :=
  (m.find? (fun p => p.1 == k)).map (fun p => p.2)

/-- Overwriting insert; mirrors `Map.set` / property assignment. -/
def alSet {κ α : Type} [BEq κ] : List (κ × α) → κ → α → List (κ × α)
  | [], k, v => [(k, v)]
  | (k0, v0) :: rest, k, v =>
    if k0 == k then (k, v) :: rest else (k0, v0) :: alSet rest k v

/-- Key removal; mirrors `Map.delete`. -/
def alRemove {κ α : Type} [BEq κ] (m : List (κ × α)) (k : κ) : List (κ × α) :=
  m.filter (fun p => !(p.1 == k))

/-- Set-insert for JS `Set.add` (no duplicates; insertion order kept). -/
def setAdd (l : List String) (x : String) : List String :=
  if x ∈ l then l else l ++ [x]

/-! ## Tag descriptors and DOM elements -/

/-- A value of a tag attribute: JS `string | boolean`. -/
inductive AttrVal : Type where
  | str (s : String)
  | boolean (b : Bool)
deriving DecidableEq, Repr

/-- The `TagJson` descriptor from the source: `tag`, `attrs`, `content`. -/
structure TagJson where
  tag : String
  attrs : List (String × AttrVal)
  content : String
deriving DecidableEq, Repr

/-- A DOM element built by the manager (`createElement` + `setAttribute` +
`textContent`).  `attrs` holds the rendered attributes. -/
structure DomElement where
  tag : String
  attrs : List (String × String)
  content : String
deriving DecidableEq, Repr

/-- Attribute rendering loop of `createScriptElement` / `createLinkElement`:
`true` renders a valueless attribute, `false` is skipped, strings render
as-is. -/
def renderAttrs : List (String × AttrVal) → List (String × String)
  | [] => []
  | (k, AttrVal.boolean true) :: rest => (k, "") :: renderAttrs rest
  | (_, AttrVal.boolean false) :: rest => renderAttrs rest
  | (k, AttrVal.str s) :: rest => (k, s) :: renderAttrs rest

/-- `createScriptElement` (manager.ts lines 147-169). -/
def createScriptElement (data : TagJson) : Except String DomElement :=
  if data.tag ≠ "script" then
    Except.error ("[DjangoComponents] loadJs received tag " ++ data.tag
      ++ " but expected script")
  else
    Except.ok { tag := "script", attrs := renderAttrs data.attrs, content := data.content }

/-- `createLinkElement` (manager.ts lines 127-145). -/
def createLinkElement (data : TagJson) : Except String DomElement :=
  if data.tag ≠ "link" then
    Except.error ("[DjangoComponents] loadCss received tag " ++ data.tag
      ++ " but expected link")
  else
    Except.ok { tag := "link", attrs := renderAttrs data.attrs, content := data.content }

/-- `data.attrs.src` / `data.attrs.href` as used in the guard
`!src || typeof src !== "string"`: yields the URL only when the attribute
is present, is a string, and is truthy (non-empty). -/
def attrString (attrs : List (String × AttrVal)) (k : String) : Option String :=
  match alGet attrs k with
  | some (AttrVal.str s) => if s = "" then none else some s
  | _ => none

/-! ## Asset registry state -/

/-- State owned by the asset half of the manager: the two loaded-URL sets,
the `pendingScripts` waiter map (key -> waiter id), and the two DOM
insertion points.  `nextWaiterId` allocates waiter (latch promise)
identities; `resolveCalls` logs every invocation of a waiter's `resolve()`
(so resolved-ness and resolve counts are observable). -/
structure AssetState where
  loadedJs : List String
  loadedCss : List String
  pendingScripts : List (String × Nat)
  nextWaiterId : Nat
  resolveCalls : List Nat
  body : List DomElement
  head : List DomElement
deriving DecidableEq, Repr

def initAssetState : AssetState :=
  { loadedJs := [], loadedCss := [], pendingScripts := [], nextWaiterId := 0,
    resolveCalls := [], body := [], head := [] }

/-- The tail of `markScriptLoaded` (manager.ts lines 246-250): if a
`waitForScriptsToLoad` entry exists for this script, invoke its
`resolve()`. -/
def resolvePendingEntry (ty url : String) (s1 : AssetState) : AssetState :=
  match alGet s1.pendingScripts (ty ++ ":" ++ url) with
  | some wid => { s1 with resolveCalls := s1.resolveCalls ++ [wid] }
  | none => s1

/-- `markScriptLoaded` (manager.ts lines 236-251).  Returns the thrown
error (if any) together with the resulting state, so that atomicity on
error is directly observable. -/
def markScriptLoaded (ty url : String) (s : AssetState) : Option String × AssetState :=
  if ty ≠ "js" ∧ ty ≠ "css" then
    (some ("[DjangoComponents] markScriptLoaded received invalid script type "
      ++ ty ++ ". Must be one of js, css"), s)
  else
    (none, resolvePendingEntry ty url
      (if ty = "js" then { s with loadedJs := setAdd s.loadedJs url }
       else { s with loadedCss := setAdd s.loadedCss url }))

/-- `isScriptLoaded` (manager.ts lines 253-262). -/
def isScriptLoaded (ty url : String) (s : AssetState) : Except String Bool :=
  if ty ≠ "js" ∧ ty ≠ "css" then
    Except.error ("[DjangoComponents] isScriptLoaded received invalid script type "
      ++ ty ++ ". Must be one of js, css")
  else
    Except.ok (if ty = "js" then url ∈ s.loadedJs else url ∈ s.loadedCss)

/-- What one URL contributes to the `Promise.all` in
`waitForScriptsToLoad`: an already-resolved promise, or the latch promise
of the waiter with the given id. -/
inductive WaitResult : Type where
  | resolved
  | waiter (id : Nat)
deriving DecidableEq, Repr

/-- The per-URL body of `waitForScriptsToLoad` (manager.ts lines 273-286).
Note the source checks `pendingScripts.has(url)` (bare `url`) but stores
new entries under the key ``type + ":" + url``; the embedding reproduces
this exactly. -/
def waitForUrl (ty url : String) (s : AssetState) :
    Except String (WaitResult × AssetState) :=
  match isScriptLoaded ty url s with
  | Except.error e => Except.error e
  | Except.ok true => Except.ok (WaitResult.resolved, s)
  | Except.ok false =>
    match alGet s.pendingScripts url with
    | some wid => Except.ok (WaitResult.waiter wid, s)
    | none =>
      let wid := s.nextWaiterId
      Except.ok (WaitResult.waiter wid,
        { s with pendingScripts := alSet s.pendingScripts (ty ++ ":" ++ url) wid,
                 nextWaiterId := wid + 1 })

/-- `waitForScriptsToLoad` (manager.ts lines 272-289): maps `waitForUrl`
over the URLs; the returned list is the family of promises combined by
`Promise.all`.  State changes made before a throw are kept. -/
def waitForScriptsToLoad (ty : String) (urls : List String) (s : AssetState) :
    Except String (List WaitResult) × AssetState :=
  match urls with
  | [] => (Except.ok [], s)
  | u :: rest =>
    match waitForUrl ty u s with
    | Except.error e => (Except.error e, s)
    | Except.ok (r, s1) =>
      match waitForScriptsToLoad ty rest s1 with
      | (Except.error e, s2) => (Except.error e, s2)
      | (Except.ok rs, s2) => (Except.ok (r :: rs), s2)

/-- Result of `loadJs` / `loadCss`: the built element and its load promise,
where `promiseResolved` records whether the promise is already resolved at
return time (`Promise.resolve()`) or resolves only on the load event. -/
structure LoadResult where
  el : DomElement
  promiseResolved : Bool
deriving DecidableEq, Repr

/-- `loadJs` (manager.ts lines 171-211).  The inline call to
`markScriptLoaded "js"` cannot throw (the kind is valid), so its state is
taken directly. -/
def loadJs (data : TagJson) (s : AssetState) :
    Except String (LoadResult × AssetState) :=
  match createScriptElement data with
  | Except.error e => Except.error e
  | Except.ok scriptNode =>
    match attrString data.attrs "src" with
    | none => Except.ok ({ el := scriptNode, promiseResolved := true }, s)
    | some src =>
      match isScriptLoaded "js" src s with
      | Except.error e => Except.error e
      | Except.ok true => Except.ok ({ el := scriptNode, promiseResolved := true }, s)
      | Except.ok false =>
        let s1 := (markScriptLoaded "js" src s).2
        let s2 := { s1 with body := s1.body ++ [scriptNode] }
        Except.ok ({ el := scriptNode, promiseResolved := false }, s2)

/-- `loadCss` (manager.ts lines 213-234).  Returns `none` (JS `undefined`)
when the href is missing, not a string, or already loaded; otherwise
appends to `<head>` first and then marks the href loaded, as the source
does. -/
def loadCss (data : TagJson) (s : AssetState) :
    Except String (Option LoadResult × AssetState) :=
  match createLinkElement data with
  | Except.error e => Except.error e
  | Except.ok linkNode =>
    match attrString data.attrs "href" with
    | none => Except.ok (none, s)
    | some href =>
      match isScriptLoaded "css" href s with
      | Except.error e => Except.error e
      | Except.ok true => Except.ok (none, s)
      | Except.ok false =>
        let s1 := { s with head := s.head ++ [linkNode] }
        let s2 := (markScriptLoaded "css" href s1).2
        Except.ok (some { el := linkNode, promiseResolved := true }, s2)

/-! ## Sequences of asset operations (for the idempotence claim) -/

/-- One call against the asset half of the manager. -/
inductive AssetOp : Type where
  | loadJsOp (d : TagJson)
  | loadCssOp (d : TagJson)
  | markOp (ty url : String)
  | waitOp (ty : String) (urls : List String)

/-- Apply one asset operation; a thrown call leaves the state it reached. -/
def runAssetOp (s : AssetState) : AssetOp → AssetState
  | AssetOp.loadJsOp d =>
    match loadJs d s with
    | Except.ok (_, s1) => s1
    | Except.error _ => s
  | AssetOp.loadCssOp d =>
    match loadCss d s with
    | Except.ok (_, s1) => s1
    | Except.error _ => s
  | AssetOp.markOp ty url => (markScriptLoaded ty url s).2
  | AssetOp.waitOp ty urls => (waitForScriptsToLoad ty urls s).2

def runAssetOps (ops : List AssetOp) : AssetState :=
  ops.foldl runAssetOp initAssetState

/-- The rendered attribute value of an element (first binding wins,
matching unique JS object keys). -/
def elemAttr (e : DomElement) (k : String) : Option String :=
  alGet e.attrs k

/-- Number of script nodes in the body whose `src` attribute is `url`. -/
def countJsNodes (url : String) (body : List DomElement) : Nat :=
  (body.filter (fun e => e.tag == "script" && elemAttr e "src" == some url)).length

/-- Number of link nodes in the head whose `href` attribute is `url`. -/
def countCssNodes (url : String) (head : List DomElement) : Nat :=
  (head.filter (fun e => e.tag == "link" && elemAttr e "href" == some url)).length

/-! ## Scheduler model: pending-call queue, ledger, drain

Component callbacks are modelled as Lean functions from the data object
and the context record to an `Except`; running a callback and awaiting
its result either yields a value or throws.  DOM instance elements are
modelled by the instance id their `data-djc-id-...` marker carries, so
`document.querySelectorAll` becomes a filter over that list. -/

/-- The component context `{ name, id, els }` built for each execution. -/
structure Ctx where
  name : String
  id : String
  els : List String
deriving DecidableEq, Repr

/-- A data object handed to callbacks (a JSON-object-like record). -/
abbrev Data := List (String × Nat)

/-- A component callback `(data, ctx) => result-or-error`. -/
abbrev CompFn := Data → Ctx → Except String Nat

/-- A data factory `() => object`. -/
abbrev DataFn := Unit → Data

/-- Modelled from the spec: the external error-handling wrapper
`callWithAsyncErrorHandling` from `errorHandling.ts` (its source is not
under src/).  Per the spec it is the surface receiving
`(fn, args) -> (resultPromise, syncError?)`; the manager awaits the
result, and a callback that throws or rejects makes the whole activation
fail, so the wrapper is the callback application itself with the error
propagated to the awaiting drain. -/
def callWithAsyncErrorHandling (fn : CompFn) (data : Data) (ctx : Ctx) :
    Except String Nat :=
  fn data ctx

/-- A `PendingCall` (manager.ts lines 23-31).  `callIdx` realises the
identity of the call's observing promise (its `resolve` / `reject` pair)
and doubles as the enqueue serial number; `queuedAt` is the timestamp
field (warning purposes only).  `hasResolve` / `hasReject` model the
optionality of the stored `resolve` / `reject` functions. -/
structure PendingCall where
  compClsId : String
  compId : String
  jsVarsHash : Option String
  queuedAt : Nat
  hasWaitPromise : Bool
  hasResolve : Bool
  hasReject : Bool
  callIdx : Nat
deriving DecidableEq, Repr

/-- The `PendingCall` record pushed by `queueComponentCall` (manager.ts
lines 539-547): `queuedAt` takes the enqueue serial number as timestamp,
and both observer functions are stored. -/
def mkCall (compClsId compId : String) (jsVarsHash : Option String)
    (hasWait : Bool) (idx : Nat) : PendingCall :=
  { compClsId := compClsId, compId := compId, jsVarsHash := jsVarsHash,
    queuedAt := idx, hasWaitPromise := hasWait, hasResolve := true,
    hasReject := true, callIdx := idx }

/-- Settlement state of an observing promise returned by
`queueComponentCall`. -/
inductive PromiseStatus : Type where
  | pending
  | resolvedWith (v : Nat)
  | rejectedWith (e : String)
deriving DecidableEq, Repr

/-- The scheduler half of the manager state.  `ledger` is
`promiseCompletionStatus` (key -> `null` for success, error otherwise);
`promises` is the table of observing promises keyed by `callIdx`;
`execLog` is ghost instrumentation appending each call's `callIdx` at the
moment `callUnblockedComponent` is entered for it; `fatalErrors` collects
errors thrown out of `_processPendingCalls`; `consoleErrors` collects
`console.error` output. -/
structure MState where
  components : List (String × List CompFn)
  componentInputs : List (String × DataFn)
  queue : List PendingCall
  ledger : List (String × Option String)
  isProcessing : Bool
  warningArmed : Bool
  dom : List String
  promises : List (Nat × PromiseStatus)
  consoleErrors : List String
  fatalErrors : List String
  execLog : List Nat
  nextCallIdx : Nat

/-- Initial manager state over a document whose instance markers are
`dom`. -/
def initMState (dom : List String) : MState :=
  { components := [], componentInputs := [], queue := [], ledger := [],
    isProcessing := false, warningArmed := false, dom := dom, promises := [],
    consoleErrors := [], fatalErrors := [], execLog := [], nextCallIdx := 0 }

/-- `_getCallKey` (manager.ts lines 294-300). -/
def getCallKey (compClsId compId : String) (jsVarsHash : Option String) : String :=
  compClsId ++ ":" ++ compId ++ ":" ++ jsVarsHash.getD "null"

/-- `_isCallBlocked` (manager.ts lines 314-348), with the same early
returns: unregistered or empty callback list; missing data factory when a
hash is present; and, when a wait-promise is present, a ledger entry that
is absent (not settled) or non-null (failed). -/
def isCallBlocked (s : MState) (c : PendingCall) : Bool :=
  let initFns := alGet s.components c.compClsId
  if initFns.isNone || (initFns.getD []).isEmpty then true
  else if (match c.jsVarsHash with
           | some h => (alGet s.componentInputs (c.compClsId ++ ":" ++ h)).isNone
           | none => false) then true
  else if c.hasWaitPromise then
    match alGet s.ledger (getCallKey c.compClsId c.compId c.jsVarsHash) with
    | none => true
    | some none => false
    | some (some _) => true
  else false

/-- The callback loop of `callUnblockedComponent` (manager.ts lines
599-607): call every registered callback in sequence with the same
`(data, ctx)` pair, awaiting each; the last result is returned and an
error aborts the chain. -/
def runCallbacks : List CompFn → Data → Ctx → Except String Nat
  | [], _, _ => Except.ok 0
  | [fn], data, ctx => callWithAsyncErrorHandling fn data ctx
  | fn :: rest, data, ctx =>
    match callWithAsyncErrorHandling fn data ctx with
    | Except.error e => Except.error e
    | Except.ok _ => runCallbacks rest data ctx

/-- `callUnblockedComponent` (manager.ts lines 558-609).  It reads only
the callback registry, the data-factory registry and the document, so the
embedding takes exactly those. -/
def callUnblockedComponent (components : List (String × List CompFn))
    (componentInputs : List (String × DataFn)) (dom : List String)
    (compClsId compId : String) (jsVarsHash : Option String) :
    Except String Nat :=
  match alGet components compClsId with
  | none => Except.error ("[DjangoComponents] " ++ compClsId
      ++ ": No component registered for that name")
  | some initFns =>
    if initFns.isEmpty then
      Except.error ("[DjangoComponents] " ++ compClsId
        ++ ": No component registered for that name")
    else
      let elems := dom.filter (fun m => m == compId)
      if elems.isEmpty then
        Except.error ("[DjangoComponents] " ++ compClsId
          ++ ": No elements with component ID " ++ compId ++ " found")
      else
        match (match jsVarsHash with
               | none => Except.ok ([] : Data)
               | some h =>
                 match alGet componentInputs (compClsId ++ ":" ++ h) with
                 | none => Except.error ("[DjangoComponents] " ++ compClsId
                     ++ ": Cannot find JS variables for hash " ++ h)
                 | some f => Except.ok (f ())) with
        | Except.error e => Except.error e
        | Except.ok data =>
          runCallbacks initFns data { name := compClsId, id := compId, els := elems }

/-- The error thrown by the drain when an activation's wait-promise
failed (manager.ts lines 405-407). -/
def scriptLoadFailMsg (c : PendingCall) (msg : String) : String :=
  "[DjangoComponents] Script loading failed for component call "
    ++ c.compClsId ++ " (ID: " ++ c.compId ++ "): " ++ msg

/-- The `console.error` text used when an execution fails and the call
has no stored `reject` (manager.ts lines 441-444). -/
def execErrMsg (c : PendingCall) (e : String) : String :=
  "[DjangoComponents] Error executing component call for " ++ c.compClsId
    ++ " (ID: " ++ c.compId ++ "): " ++ e

/-- The failed-wait check at the top of the drain loop (manager.ts lines
396-409): the head has a wait-promise and the ledger holds a non-null
entry for its key. -/
def waitFailed (c : PendingCall) (ledger : List (String × Option String)) :
    Option String :=
  if c.hasWaitPromise then
    match alGet ledger (getCallKey c.compClsId c.compId c.jsVarsHash) with
    | some (some err) => some err
    | _ => none
  else none

/-- Settle the observing promise of call `idx`.  A promise settles at
most once, so a non-pending entry is left untouched. -/
def setPromise (s : MState) (idx : Nat) (st : PromiseStatus) : MState :=
  { s with promises := s.promises.map (fun p =>
      if p.1 = idx then
        match p.2 with
        | PromiseStatus.pending => (p.1, st)
        | other => (p.1, other)
      else p) }

/-- The head-removal step of the drain (manager.ts lines 417-422):
shift the call off the queue, delete its ledger entry if it carried a
wait-promise, and log the entry into `callUnblockedComponent` (ghost). -/
def shiftCall (s : MState) (c : PendingCall) (rest : List PendingCall) : MState :=
  { s with queue := rest,
           ledger := if c.hasWaitPromise then
               alRemove s.ledger (getCallKey c.compClsId c.compId c.jsVarsHash)
             else s.ledger,
           execLog := s.execLog ++ [c.callIdx] }

/-- Outcome of the drain's `while` loop: normal exit (queue empty or head
blocked), or the throw on a failed wait-promise. -/
inductive DrainOut : Type where
  | done (s : MState)
  | thrown (e : String) (s : MState)

def DrainOut.state : DrainOut → MState
  | DrainOut.done s => s
  | DrainOut.thrown _ s => s

/-- The `while` loop of `_processPendingCalls` (manager.ts lines
392-447).  Each iteration inspects the head: a recorded wait failure
clears the queue and the ledger, resets the re-entrancy flag and throws;
a blocked head breaks; otherwise the head is shifted, its ledger entry
deleted, `callUnblockedComponent` is invoked (logged in `execLog`), and
its result resolves or rejects the observing promise (or is logged when
no rejecter was stored).  `fuel` bounds the iterations; the queue never
grows inside the loop, so `queue.length` fuel is exact. -/
def drainLoop : Nat → MState → DrainOut
  | 0, s => DrainOut.done s
  | Nat.succ fuel, s =>
    match s.queue with
    | [] => DrainOut.done s
    | call :: rest =>
      match waitFailed call s.ledger with
      | some err =>
        DrainOut.thrown (scriptLoadFailMsg call err)
          { s with queue := [], ledger := [], isProcessing := false }
      | none =>
        if isCallBlocked s call then DrainOut.done s
        else
          match callUnblockedComponent s.components s.componentInputs s.dom
              call.compClsId call.compId call.jsVarsHash with
          | Except.ok v =>
            drainLoop fuel
              (if call.hasResolve then
                 setPromise (shiftCall s call rest) call.callIdx (PromiseStatus.resolvedWith v)
               else shiftCall s call rest)
          | Except.error e =>
            drainLoop fuel
              (if call.hasReject then
                 setPromise (shiftCall s call rest) call.callIdx (PromiseStatus.rejectedWith e)
               else { shiftCall s call rest with consoleErrors :=
                        (shiftCall s call rest).consoleErrors ++ [execErrMsg call e] })

/-- `_processPendingCalls` (manager.ts lines 385-456): re-entrancy guard,
the loop, and on normal exit the warning-interval cleanup (skipped by the
throw, exactly as in the source, where the `throw` bypasses the cleanup
at lines 449-453).  An error thrown out of the drain is recorded in
`fatalErrors` (the callers do not catch it). -/
def processPendingCalls (s : MState) : MState :=
  if s.isProcessing then s
  else
    match drainLoop s.queue.length { s with isProcessing := true } with
    | DrainOut.done s1 =>
      let s2 := if s1.queue.isEmpty && s1.warningArmed then
          { s1 with warningArmed := false }
        else s1
      { s2 with isProcessing := false }
    | DrainOut.thrown e s1 => { s1 with fatalErrors := s1.fatalErrors ++ [e] }

/-- `registerComponent` (manager.ts lines 481-492). -/
def registerComponent (compClsId : String) (fn : CompFn) (s : MState) : MState :=
  let cur := (alGet s.components compClsId).getD []
  processPendingCalls
    { s with components := alSet s.components compClsId (cur ++ [fn]) }

/-- `registerComponentData` (manager.ts lines 500-510). -/
def registerComponentData (compClsId jsVarsHash : String) (f : DataFn)
    (s : MState) : MState :=
  processPendingCalls
    { s with componentInputs :=
        alSet s.componentInputs (compClsId ++ ":" ++ jsVarsHash) f }

/-- `queueComponentCall` (manager.ts lines 512-556): push the call with a
fresh observing promise and arm the warning interval.  The `then` /
`catch` continuations attached to a provided wait-promise are modelled by
the `settleWaitPromise` event below.  Note the source does **not**
request a drain here.  Returns the observing promise (its index). -/
def queueComponentCall (compClsId compId : String) (jsVarsHash : Option String)
    (hasWait : Bool) (s : MState) : Nat × MState :=
  let s1 := { s with
    queue := s.queue ++ [mkCall compClsId compId jsVarsHash hasWait s.nextCallIdx],
    promises := s.promises ++ [(s.nextCallIdx, PromiseStatus.pending)],
    nextCallIdx := s.nextCallIdx + 1 }
  (s.nextCallIdx, if s1.queue.length > 0 then { s1 with warningArmed := true } else s1)

/-- Settlement of a wait-promise attached at enqueue time (the `then` /
`catch` continuations installed by `queueComponentCall`, manager.ts lines
521-535): record the outcome in the ledger (`none` for success, the error
otherwise) and request a drain. -/
def settleWaitPromise (compClsId compId : String) (jsVarsHash : Option String)
    (outcome : Option String) (s : MState) : MState :=
  processPendingCalls
    { s with ledger :=
        alSet s.ledger (getCallKey compClsId compId jsVarsHash) outcome }

/-- One externally triggered step against the scheduler: the manager's
entry points plus the settlement of a wait-promise.  `drain` is a bare
`_processPendingCalls` request (e.g. the tail of `_loadComponentScripts`;
envelope ingestion is a composite of these events). -/
inductive MEvent : Type where
  | register (compClsId : String) (fn : CompFn)
  | registerData (compClsId jsVarsHash : String) (f : DataFn)
  | enqueue (compClsId compId : String) (jsVarsHash : Option String) (hasWait : Bool)
  | settleWait (compClsId compId : String) (jsVarsHash : Option String)
      (outcome : Option String)
  | drain

def stepEvent (s : MState) : MEvent → MState
  | MEvent.register compClsId fn => registerComponent compClsId fn s
  | MEvent.registerData compClsId h f => registerComponentData compClsId h f s
  | MEvent.enqueue compClsId compId hash hasWait =>
    (queueComponentCall compClsId compId hash hasWait s).2
  | MEvent.settleWait compClsId compId hash outcome =>
    settleWaitPromise compClsId compId hash outcome s
  | MEvent.drain => processPendingCalls s

/-- A run of the manager: fold an event sequence over the initial state.
The events may interleave arbitrarily, covering every order in which
registrations arrive, envelopes enqueue activations and wait-promises
settle. -/
def runEvents (dom : List String) (es : List MEvent) : MState :=
  es.foldl stepEvent (initMState dom)

/-! ## Heap model of one activation execution

To talk about object identity (`callUnblockedComponent` invokes the data
factory once and passes the *same* object to every callback; a separate
activation gets a *fresh* object), the execution is replayed over an
explicit heap.  A data object is a heap cell holding a `Nat`; allocation
appends a cell, so a cell's address is the heap length at allocation
time.  A callback receives the address of the data object and the
context, reads the heap, and returns a list of writes (JS callbacks
mutate reachable objects but do not deallocate) plus its result. -/

abbrev Heap := List Nat

/-- A heap-level component callback. -/
abbrev HCompFn := Nat → Ctx → Heap → (List (Nat × Nat) × Except String Nat)

/-- Apply a callback's writes; out-of-range writes are dropped, so the
heap length is invariant under callback execution. -/
def applyWrites (ws : List (Nat × Nat)) (h : Heap) : Heap :=
  ws.foldl (fun acc w => acc.set w.1 w.2) h

/-- One callback invocation as observed in the heap model: the data
object address and context it was passed, and the heap before and after
it ran. -/
structure CallTraceEntry where
  dataArg : Nat
  ctxArg : Ctx
  heapIn : Heap
  heapOut : Heap
deriving DecidableEq, Repr

/-- The callback loop of `callUnblockedComponent` over the heap,
returning the invocation trace, the `lastResult` (or the propagated
error) and the final heap.  As in the source, a throwing callback has
already performed its mutations when the error propagates. -/
def runCallbacksH : List HCompFn → Nat → Ctx → Heap →
    (List CallTraceEntry × Except String Nat × Heap)
  | [], _, _, h => ([], Except.ok 0, h)
  | fn :: rest, d, ctx, h =>
    let (ws, res) := fn d ctx h
    let h2 := applyWrites ws h
    let entry : CallTraceEntry := { dataArg := d, ctxArg := ctx, heapIn := h, heapOut := h2 }
    match res with
    | Except.error e => ([entry], Except.error e, h2)
    | Except.ok v =>
      match rest with
      | [] => ([entry], Except.ok v, h2)
      | _ =>
        let (entries, res2, h3) := runCallbacksH rest d ctx h2
        (entry :: entries, res2, h3)

/-- The factory-invocation and execution trace of one activation. -/
structure HTrace where
  allocs : List Nat
  calls : List CallTraceEntry
deriving DecidableEq, Repr

/-- The data lookup of `callUnblockedComponent` (manager.ts lines
580-591) in the heap model: no hash yields the default payload 0 (the
`\x7b\x7d` object), a hash requires a registered factory, whose payload
initialises the fresh object. -/
def lookupJsData (componentInputsH : List (String × Nat)) (compClsId : String)
    (jsVarsHash : Option String) : Except String Nat :=
  match jsVarsHash with
  | none => Except.ok 0
  | some hs =>
    match alGet componentInputsH (compClsId ++ ":" ++ hs) with
    | none => Except.error ("[DjangoComponents] " ++ compClsId
        ++ ": Cannot find JS variables for hash " ++ hs)
    | some v => Except.ok v

/-- `callUnblockedComponent` (manager.ts lines 558-609) replayed over the
heap.  A registered data factory is `() => parse(json)` and returns a
fresh object on each invocation, so its model allocates a fresh cell
(initialised from the registered payload) per invocation; the
`let data = \x7b\x7d` default likewise allocates a fresh empty object.
`allocs` logs every factory/default allocation made during this
execution. -/
def callUnblockedComponentH (componentsH : List (String × List HCompFn))
    (componentInputsH : List (String × Nat)) (dom : List String)
    (compClsId compId : String) (jsVarsHash : Option String) (h : Heap) :
    Except String (HTrace × Nat × Heap) :=
  match alGet componentsH compClsId with
  | none => Except.error ("[DjangoComponents] " ++ compClsId
      ++ ": No component registered for that name")
  | some initFns =>
    if initFns.isEmpty then
      Except.error ("[DjangoComponents] " ++ compClsId
        ++ ": No component registered for that name")
    else
      if (dom.filter (fun m => m == compId)).isEmpty then
        Except.error ("[DjangoComponents] " ++ compClsId
          ++ ": No elements with component ID " ++ compId ++ " found")
      else
        match lookupJsData componentInputsH compClsId jsVarsHash with
        | Except.error e => Except.error e
        | Except.ok v =>
          match runCallbacksH initFns h.length
              { name := compClsId, id := compId,
                els := dom.filter (fun m => m == compId) } (h ++ [v]) with
          | (_, Except.error e, _) => Except.error e
          | (entries, Except.ok r, h2) =>
            Except.ok ({ allocs := [h.length], calls := entries }, r, h2)

/-! ## Derived definitions used in statements -/

/-- The element `createScriptElement` builds for a descriptor (the
`scriptNode`). -/
def scriptElemOf (d : TagJson) : DomElement :=
  { tag := "script", attrs := renderAttrs d.attrs, content := d.content }

/-- The element `createLinkElement` builds for a descriptor. -/
def linkElemOf (d : TagJson) : DomElement :=
  { tag := "link", attrs := renderAttrs d.attrs, content := d.content }

/-- At most one DOM node per (kind, url), and none for URLs never loaded:
the invariant behind idempotent asset loading. -/
def NodesInv (s : AssetState) : Prop :=
  ∀ url, (url ∉ s.loadedJs → countJsNodes url s.body = 0) ∧
         countJsNodes url s.body ≤ 1 ∧
         (url ∉ s.loadedCss → countCssNodes url s.head = 0) ∧
         countCssNodes url s.head ≤ 1

/-- A concrete inline-only script descriptor (no `src` attribute). -/
def c5dInline : TagJson := { tag := "script", attrs := [], content := "inline" }

/-- A concrete descriptor with a boolean attribute and no `src`. -/
def c5dDefer : TagJson :=
  { tag := "script", attrs := [("defer", AttrVal.boolean true)], content := "x" }

/-- A concrete script descriptor used in idempotence witnesses. -/
def c6dJs : TagJson :=
  { tag := "script", attrs := [("src", AttrVal.str "/a.js")], content := "" }

/-- The asset state after loading `c6dJs` once. -/
def c6sAfter : AssetState := runAssetOps [AssetOp.loadJsOp c6dJs]

/-- A concrete callback used in scheduler scenarios. -/
def c3fn : CompFn := fun _ _ => Except.ok 1

/-- The pending call of the C3 scenario. -/
def c3call : PendingCall := mkCall "z" "1" none true 0

/-- The C3 run: register, enqueue with a wait-promise, settle it with an
error. -/
def c3run : MState :=
  runEvents [] [MEvent.register "z" c3fn, MEvent.enqueue "z" "1" none true,
                MEvent.settleWait "z" "1" none (some "boom")]

/-- A manager state whose queue head carries a failed wait-promise. -/
def c3state : MState :=
  { components := [("z", [c3fn])], componentInputs := [], queue := [c3call],
    ledger := [("z:1:null", some "boom")], isProcessing := false,
    warningArmed := true, dom := [], promises := [(0, PromiseStatus.pending)],
    consoleErrors := [], fatalErrors := [], execLog := [], nextCallIdx := 1 }

/-- The C4 callback, returning the value 7. -/
def c4fn : CompFn := fun _ _ => Except.ok 7

/-- The C4 run: a callback is registered, then a call with no data-hash
and no wait-promise is enqueued; nothing else happens. -/
def c4run : MState :=
  runEvents ["i1"] [MEvent.register "table" c4fn, MEvent.enqueue "table" "i1" none false]

/-- The C4 state right after registering the callback. -/
def c4reg : MState := stepEvent (initMState ["i1"]) (MEvent.register "table" c4fn)

/-- A failing callback for the C9 scenario. -/
def c9fnBad : CompFn := fun _ _ => Except.error "cb failed"

/-- An innocuous callback for the C9 scenario. -/
def c9fnOk : CompFn := fun _ _ => Except.ok 5

/-- The failing head call of the C9 scenario. -/
def c9call : PendingCall := mkCall "w" "1" none false 0

/-- The subsequent queued call of the C9 scenario. -/
def c9next : PendingCall := mkCall "w" "2" none false 1

/-- A mid-drain state whose head's execution will fail. -/
def c9state : MState :=
  { components := [("w", [c9fnBad])], componentInputs := [],
    queue := [c9call, c9next], ledger := [], isProcessing := true,
    warningArmed := true, dom := ["1", "2"],
    promises := [(0, PromiseStatus.pending), (1, PromiseStatus.pending)],
    consoleErrors := [], fatalErrors := [], execLog := [], nextCallIdx := 2 }

/-- The trace measure for FIFO: the executed serials followed by the
serials still queued, in order. -/
def Lm (s : MState) : List Nat := s.execLog ++ s.queue.map (fun c => c.callIdx)

/-- The scheduler invariant: the executed-then-queued serials are
strictly increasing, and all are below the next serial to be handed
out. -/
def QInv (s : MState) : Prop :=
  List.Pairwise (fun a b => a < b) (Lm s) ∧ ∀ i ∈ Lm s, i < s.nextCallIdx

/-- A heap callback that writes 42 into its data object and returns its
current value. -/
def c10fn1 : HCompFn := fun d _ h => ([(d, 42)], Except.ok (h.getD d 0))

/-- A heap callback that just reads its data object. -/
def c10fn2 : HCompFn := fun d _ h => ([], Except.ok (h.getD d 0))

/-- The C10 component registry. -/
def c10comps : List (String × List HCompFn) := [("t", [c10fn1, c10fn2])]

/-- The C10 data-factory registry: hash `h1` builds objects holding 7. -/
def c10inputs : List (String × Nat) := [("t:h1", 7)]

/-- The context both C10 callbacks receive. -/
def c10ctx : Ctx := { name := "t", id := "i1", els := ["i1"] }

/-- The execution trace of the concrete C10 activation. -/
def c10tr : HTrace :=
  { allocs := [0],
    calls := [{ dataArg := 0, ctxArg := c10ctx, heapIn := [7], heapOut := [42] },
              { dataArg := 0, ctxArg := c10ctx, heapIn := [42], heapOut := [42] }] }

/-! ## Theorems -/

/-- Membership after a JS `Set.add`. -/
theorem mem_setAdd {l : List String} {x y : String} :
    y ∈ setAdd l x ↔ y ∈ l ∨ y = x := by
  unfold setAdd
  by_cases hx : x ∈ l
  · rw [if_pos hx]
    constructor
    · exact Or.inl
    · rintro (h | rfl)
      · exact h
      · exact hx
  · rw [if_neg hx]
    simp

/-- `resolvePendingEntry` only touches the resolve log. -/
theorem resolvePendingEntry_fields (ty url : String) (s1 : AssetState) :
    (resolvePendingEntry ty url s1).body = s1.body ∧
    (resolvePendingEntry ty url s1).head = s1.head ∧
    (resolvePendingEntry ty url s1).loadedJs = s1.loadedJs ∧
    (resolvePendingEntry ty url s1).loadedCss = s1.loadedCss := by
  unfold resolvePendingEntry
  split <;> simp

/-- Shape of a `markScriptLoaded "js"` result. -/
theorem markScriptLoaded_js_eq (url : String) (s : AssetState) :
    (markScriptLoaded "js" url s).2 =
      resolvePendingEntry "js" url { s with loadedJs := setAdd s.loadedJs url } := by
  simp [markScriptLoaded]

/-- Shape of a `markScriptLoaded "css"` result. -/
theorem markScriptLoaded_css_eq (url : String) (s : AssetState) :
    (markScriptLoaded "css" url s).2 =
      resolvePendingEntry "css" url { s with loadedCss := setAdd s.loadedCss url } := by
  simp [markScriptLoaded]

/-- `markScriptLoaded "js"` adds the URL to the loaded-JS set and touches
no nodes and no other set. -/
theorem markScriptLoaded_js (url : String) (s : AssetState) :
    (markScriptLoaded "js" url s).2.body = s.body ∧
    (markScriptLoaded "js" url s).2.head = s.head ∧
    (markScriptLoaded "js" url s).2.loadedCss = s.loadedCss ∧
    (markScriptLoaded "js" url s).2.loadedJs = setAdd s.loadedJs url := by
  obtain ⟨hb, hh, hj, hc⟩ := resolvePendingEntry_fields "js" url
    { s with loadedJs := setAdd s.loadedJs url }
  rw [markScriptLoaded_js_eq, hb, hh, hj, hc]
  exact ⟨rfl, rfl, rfl, rfl⟩

/-- `markScriptLoaded "css"` adds the URL to the loaded-CSS set and
touches no nodes and no other set. -/
theorem markScriptLoaded_css (url : String) (s : AssetState) :
    (markScriptLoaded "css" url s).2.body = s.body ∧
    (markScriptLoaded "css" url s).2.head = s.head ∧
    (markScriptLoaded "css" url s).2.loadedJs = s.loadedJs ∧
    (markScriptLoaded "css" url s).2.loadedCss = setAdd s.loadedCss url := by
  obtain ⟨hb, hh, hj, hc⟩ := resolvePendingEntry_fields "css" url
    { s with loadedCss := setAdd s.loadedCss url }
  rw [markScriptLoaded_css_eq, hb, hh, hj, hc]
  exact ⟨rfl, rfl, rfl, rfl⟩

/-- `markScriptLoaded` never removes nodes and only grows the loaded
sets, for any kind argument. -/
theorem markScriptLoaded_state (ty url : String) (s : AssetState) :
    (markScriptLoaded ty url s).2.body = s.body ∧
    (markScriptLoaded ty url s).2.head = s.head ∧
    (∀ u, u ∈ s.loadedJs → u ∈ (markScriptLoaded ty url s).2.loadedJs) ∧
    (∀ u, u ∈ s.loadedCss → u ∈ (markScriptLoaded ty url s).2.loadedCss) := by
  by_cases hbad : ty ≠ "js" ∧ ty ≠ "css"
  · simp [markScriptLoaded, if_pos hbad]
  · by_cases hty : ty = "js"
    · subst hty
      obtain ⟨hb, hh, hc, hj⟩ := markScriptLoaded_js url s
      rw [hb, hh, hc, hj]
      refine ⟨rfl, rfl, ?_, fun u hu => hu⟩
      intro u hu
      exact mem_setAdd.2 (Or.inl hu)
    · have hcss : ty = "css" := by tauto
      subst hcss
      obtain ⟨hb, hh, hj, hc⟩ := markScriptLoaded_css url s
      rw [hb, hh, hj, hc]
      refine ⟨rfl, rfl, fun u hu => hu, ?_⟩
      intro u hu
      exact mem_setAdd.2 (Or.inl hu)

/-- A successful `waitForUrl` never touches the loaded sets or the DOM. -/
theorem waitForUrl_state (ty url : String) (s : AssetState) (r : WaitResult)
    (s1 : AssetState) (h : waitForUrl ty url s = Except.ok (r, s1)) :
    s1.body = s.body ∧ s1.head = s.head ∧
    s1.loadedJs = s.loadedJs ∧ s1.loadedCss = s.loadedCss := by
  unfold waitForUrl at h
  split at h
  · exact absurd h (by simp)
  · simp only [Except.ok.injEq, Prod.mk.injEq] at h
    obtain ⟨-, hs⟩ := h
    subst hs
    exact ⟨rfl, rfl, rfl, rfl⟩
  · split at h
    · simp only [Except.ok.injEq, Prod.mk.injEq] at h
      obtain ⟨-, hs⟩ := h
      subst hs
      exact ⟨rfl, rfl, rfl, rfl⟩
    · simp only [Except.ok.injEq, Prod.mk.injEq] at h
      obtain ⟨-, hs⟩ := h
      subst hs
      exact ⟨rfl, rfl, rfl, rfl⟩

/-- `waitForScriptsToLoad` never touches the loaded sets or the DOM. -/
theorem waitForScriptsToLoad_state (ty : String) (urls : List String) (s : AssetState) :
    (waitForScriptsToLoad ty urls s).2.body = s.body ∧
    (waitForScriptsToLoad ty urls s).2.head = s.head ∧
    (waitForScriptsToLoad ty urls s).2.loadedJs = s.loadedJs ∧
    (waitForScriptsToLoad ty urls s).2.loadedCss = s.loadedCss := by
  induction urls generalizing s with
  | nil => exact ⟨rfl, rfl, rfl, rfl⟩
  | cons u rest ih =>
    unfold waitForScriptsToLoad
    cases hw : waitForUrl ty u s with
    | error e => simp
    | ok pr =>
      obtain ⟨r, s1⟩ := pr
      obtain ⟨hb, hh, hj, hc⟩ := waitForUrl_state ty u s r s1 hw
      have ihs := ih s1
      rcases hrec : waitForScriptsToLoad ty rest s1 with ⟨res, s2⟩
      rw [hrec] at ihs
      dsimp only
      rw [hrec]
      cases res <;>
        exact ⟨by rw [ihs.1, hb], by rw [ihs.2.1, hh],
               by rw [ihs.2.2.1, hj], by rw [ihs.2.2.2, hc]⟩

/-- `alGet` on a cons cell. -/
theorem alGet_cons {κ α : Type} [BEq κ] (k0 : κ) (v0 : α)
    (rest : List (κ × α)) (k : κ) :
    alGet ((k0, v0) :: rest) k = if k0 == k then some v0 else alGet rest k := by
  unfold alGet
  by_cases h : k0 == k <;> simp [List.find?_cons, h]

/-- The rendered element of a descriptor whose attribute list yields a
URL string carries that URL as a rendered attribute. -/
theorem attrString_renderAttrs (attrs : List (String × AttrVal)) (k u : String)
    (h : attrString attrs k = some u) : alGet (renderAttrs attrs) k = some u := by
  induction attrs with
  | nil => simp [attrString, alGet] at h
  | cons p rest ih =>
    obtain ⟨k0, v0⟩ := p
    unfold attrString at h
    rw [alGet_cons] at h
    by_cases hk : k0 == k
    · rw [if_pos hk] at h
      cases v0 with
      | str sv =>
        simp only at h
        by_cases hsv : sv = ""
        · rw [if_pos hsv] at h
          cases h
        · rw [if_neg hsv] at h
          unfold renderAttrs
          rw [alGet_cons, if_pos hk]
          exact h
      | boolean b =>
        cases b <;> simp at h
    · rw [if_neg hk] at h
      have hrest : attrString rest k = some u := by
        unfold attrString
        exact h
      cases v0 with
      | str sv =>
        unfold renderAttrs
        rw [alGet_cons, if_neg hk]
        exact ih hrest
      | boolean b =>
        cases b with
        | true =>
          unfold renderAttrs
          rw [alGet_cons, if_neg hk]
          exact ih hrest
        | false =>
          unfold renderAttrs
          exact ih hrest

/-- Counting script nodes across an append of one element. -/
theorem countJsNodes_append (url : String) (body : List DomElement) (el : DomElement) :
    countJsNodes url (body ++ [el]) =
      countJsNodes url body +
        (if el.tag = "script" ∧ elemAttr el "src" = some url then 1 else 0) := by
  unfold countJsNodes
  rw [List.filter_append, List.length_append]
  congr 1
  by_cases h : el.tag = "script" ∧ elemAttr el "src" = some url
  · rw [if_pos h]
    simp [List.filter, h.1, h.2]
  · rw [if_neg h]
    have hcond : (el.tag == "script" && elemAttr el "src" == some url) = false := by
      rcases not_and_or.mp h with h1 | h1 <;> simp [h1]
    simp [List.filter, hcond]

/-- Counting link nodes across an append of one element. -/
theorem countCssNodes_append (url : String) (head : List DomElement) (el : DomElement) :
    countCssNodes url (head ++ [el]) =
      countCssNodes url head +
        (if el.tag = "link" ∧ elemAttr el "href" = some url then 1 else 0) := by
  unfold countCssNodes
  rw [List.filter_append, List.length_append]
  congr 1
  by_cases h : el.tag = "link" ∧ elemAttr el "href" = some url
  · rw [if_pos h]
    simp [List.filter, h.1, h.2]
  · rw [if_neg h]
    have hcond : (el.tag == "link" && elemAttr el "href" == some url) = false := by
      rcases not_and_or.mp h with h1 | h1 <;> simp [h1]
    simp [List.filter, hcond]

/-- Case analysis of a successful `loadJs`: either the state is untouched
(inline-only, or URL already loaded), or exactly one script node was
appended and the URL newly marked. -/
theorem loadJs_cases (d : TagJson) (s : AssetState) (r : LoadResult)
    (s1 : AssetState) (h : loadJs d s = Except.ok (r, s1)) :
    s1 = s ∨
    ∃ src, attrString d.attrs "src" = some src ∧ src ∉ s.loadedJs ∧
      s1.body = s.body ++ [scriptElemOf d] ∧ s1.head = s.head ∧
      s1.loadedCss = s.loadedCss ∧
      (∀ u, u ∈ s1.loadedJs ↔ u ∈ s.loadedJs ∨ u = src) := by
  unfold loadJs at h
  split at h
  · exact absurd h (by simp)
  · rename_i scriptNode hce
    have helem : scriptNode = scriptElemOf d := by
      unfold createScriptElement at hce
      split at hce
      · cases hce
      · simp only [Except.ok.injEq] at hce
        rw [← hce]
        rfl
    subst helem
    split at h
    · simp only [Except.ok.injEq, Prod.mk.injEq] at h
      obtain ⟨-, hs⟩ := h
      subst hs
      exact Or.inl rfl
    · rename_i src hsrc
      split at h
      · exact absurd h (by simp)
      · simp only [Except.ok.injEq, Prod.mk.injEq] at h
        obtain ⟨-, hs⟩ := h
        subst hs
        exact Or.inl rfl
      · rename_i his
        have hnot : src ∉ s.loadedJs := by
          unfold isScriptLoaded at his
          rw [if_neg (by decide)] at his
          simp only [Except.ok.injEq] at his
          simpa using his
        simp only [Except.ok.injEq, Prod.mk.injEq] at h
        obtain ⟨-, hs⟩ := h
        subst hs
        obtain ⟨hb, hh, hc, hj⟩ := markScriptLoaded_js src s
        refine Or.inr ⟨src, hsrc, hnot, ?_, ?_, ?_, ?_⟩
        · simp [hb]
        · simp [hh]
        · simp [hc]
        · intro u
          simp only
          rw [hj]
          exact mem_setAdd

/-- Case analysis of a successful `loadCss`, mirroring `loadJs_cases`. -/
theorem loadCss_cases (d : TagJson) (s : AssetState) (r : Option LoadResult)
    (s1 : AssetState) (h : loadCss d s = Except.ok (r, s1)) :
    s1 = s ∨
    ∃ href, attrString d.attrs "href" = some href ∧ href ∉ s.loadedCss ∧
      s1.head = s.head ++ [linkElemOf d] ∧ s1.body = s.body ∧
      s1.loadedJs = s.loadedJs ∧
      (∀ u, u ∈ s1.loadedCss ↔ u ∈ s.loadedCss ∨ u = href) := by
  unfold loadCss at h
  split at h
  · exact absurd h (by simp)
  · rename_i linkNode hce
    have helem : linkNode = linkElemOf d := by
      unfold createLinkElement at hce
      split at hce
      · cases hce
      · simp only [Except.ok.injEq] at hce
        rw [← hce]
        rfl
    subst helem
    split at h
    · simp only [Except.ok.injEq, Prod.mk.injEq] at h
      obtain ⟨-, hs⟩ := h
      subst hs
      exact Or.inl rfl
    · rename_i href hhref
      split at h
      · exact absurd h (by simp)
      · simp only [Except.ok.injEq, Prod.mk.injEq] at h
        obtain ⟨-, hs⟩ := h
        subst hs
        exact Or.inl rfl
      · rename_i his
        have hnot : href ∉ s.loadedCss := by
          unfold isScriptLoaded at his
          rw [if_neg (by decide)] at his
          simp only [Except.ok.injEq] at his
          simpa using his
        simp only [Except.ok.injEq, Prod.mk.injEq] at h
        obtain ⟨-, hs⟩ := h
        subst hs
        obtain ⟨hb, hh, hj, hc⟩ := markScriptLoaded_css href
          { s with head := s.head ++ [linkElemOf d] }
        refine Or.inr ⟨href, hhref, hnot, ?_, ?_, ?_, ?_⟩
        · simp [hh]
        · simp [hb]
        · simp [hj]
        · intro u
          rw [hc]
          exact mem_setAdd

/-- One asset operation preserves the at-most-one-node invariant. -/
theorem runAssetOp_inv (s : AssetState) (op : AssetOp) (hinv : NodesInv s) :
    NodesInv (runAssetOp s op) := by
  cases op with
  | loadJsOp d =>
    simp only [runAssetOp]
    cases hres : loadJs d s with
    | error e => exact hinv
    | ok pr =>
      obtain ⟨r, s1⟩ := pr
      dsimp only
      rcases loadJs_cases d s r s1 hres with hs | ⟨src, hsrc, hnot, hb, hh, hc, hj⟩
      · rw [hs]
        exact hinv
      · intro url
        obtain ⟨h1, h2, h3, h4⟩ := hinv url
        have hel_src : elemAttr (scriptElemOf d) "src" = some src :=
          attrString_renderAttrs d.attrs "src" src hsrc
        by_cases hu : url = src
        · subst hu
          have hcount : countJsNodes url s1.body = countJsNodes url s.body + 1 := by
            rw [hb, countJsNodes_append, if_pos ⟨rfl, hel_src⟩]
          refine ⟨?_, ?_, ?_, ?_⟩
          · intro hnm
            exact absurd ((hj url).2 (Or.inr rfl)) hnm
          · rw [hcount, h1 hnot]
          · intro hnm
            rw [hc] at hnm
            rw [hh]
            exact h3 hnm
          · rw [hh]
            exact h4
        · have hcount : countJsNodes url s1.body = countJsNodes url s.body := by
            rw [hb, countJsNodes_append, if_neg, Nat.add_zero]
            rintro ⟨-, hcontra⟩
            rw [hel_src] at hcontra
            injection hcontra with hx
            exact hu hx.symm
          refine ⟨?_, ?_, ?_, ?_⟩
          · intro hnm
            rw [hcount]
            apply h1
            intro hmem
            exact hnm ((hj url).2 (Or.inl hmem))
          · rw [hcount]
            exact h2
          · intro hnm
            rw [hc] at hnm
            rw [hh]
            exact h3 hnm
          · rw [hh]
            exact h4
  | loadCssOp d =>
    simp only [runAssetOp]
    cases hres : loadCss d s with
    | error e => exact hinv
    | ok pr =>
      obtain ⟨r, s1⟩ := pr
      dsimp only
      rcases loadCss_cases d s r s1 hres with hs | ⟨href, hhref, hnot, hh, hb, hj, hc⟩
      · rw [hs]
        exact hinv
      · intro url
        obtain ⟨h1, h2, h3, h4⟩ := hinv url
        have hel_href : elemAttr (linkElemOf d) "href" = some href :=
          attrString_renderAttrs d.attrs "href" href hhref
        by_cases hu : url = href
        · subst hu
          have hcount : countCssNodes url s1.head = countCssNodes url s.head + 1 := by
            rw [hh, countCssNodes_append, if_pos ⟨rfl, hel_href⟩]
          refine ⟨?_, ?_, ?_, ?_⟩
          · intro hnm
            rw [hj] at hnm
            rw [hb]
            exact h1 hnm
          · rw [hb]
            exact h2
          · intro hnm
            exact absurd ((hc url).2 (Or.inr rfl)) hnm
          · rw [hcount, h3 hnot]
        · have hcount : countCssNodes url s1.head = countCssNodes url s.head := by
            rw [hh, countCssNodes_append, if_neg, Nat.add_zero]
            rintro ⟨-, hcontra⟩
            rw [hel_href] at hcontra
            injection hcontra with hx
            exact hu hx.symm
          refine ⟨?_, ?_, ?_, ?_⟩
          · intro hnm
            rw [hj] at hnm
            rw [hb]
            exact h1 hnm
          · rw [hb]
            exact h2
          · intro hnm
            rw [hcount]
            apply h3
            intro hmem
            exact hnm ((hc url).2 (Or.inl hmem))
          · rw [hcount]
            exact h4
  | markOp ty url0 =>
    simp only [runAssetOp]
    obtain ⟨hb, hh, hj, hc⟩ := markScriptLoaded_state ty url0 s
    intro url
    obtain ⟨h1, h2, h3, h4⟩ := hinv url
    refine ⟨?_, ?_, ?_, ?_⟩
    · intro hnm
      rw [hb]
      apply h1
      intro hm
      exact hnm (hj url hm)
    · rw [hb]
      exact h2
    · intro hnm
      rw [hh]
      apply h3
      intro hm
      exact hnm (hc url hm)
    · rw [hh]
      exact h4
  | waitOp ty urls =>
    simp only [runAssetOp]
    obtain ⟨hb, hh, hj, hc⟩ := waitForScriptsToLoad_state ty urls s
    intro url
    obtain ⟨h1, h2, h3, h4⟩ := hinv url
    rw [hb, hh]
    refine ⟨fun hnm => h1 (by rw [hj] at hnm; exact hnm), h2,
            fun hnm => h3 (by rw [hc] at hnm; exact hnm), h4⟩

/-- The at-most-one-node invariant holds along every call sequence. -/
theorem runAssetOps_inv (ops : List AssetOp) : NodesInv (runAssetOps ops) := by
  have hinit : NodesInv initAssetState := by
    intro url
    exact ⟨fun _ => rfl, by simp [countJsNodes, initAssetState],
           fun _ => rfl, by simp [countCssNodes, initAssetState]⟩
  have hgen : ∀ (l : List AssetOp) (s : AssetState),
      NodesInv s → NodesInv (l.foldl runAssetOp s) := by
    intro l
    induction l with
    | nil => exact fun s hs => hs
    | cons op rest ih => exact fun s hs => ih _ (runAssetOp_inv s op hs)
  exact hgen ops initAssetState hinit

/-- **C5** (counterexample) For a script descriptor with no `src`
attribute, `loadJs` returns the built element with an already-resolved
promise but leaves the state — including the document body — completely
unchanged: no element is appended, contradicting the claim that the
built script element is appended to the body. -/
theorem c5_counterexample_no_append :
    loadJs c5dInline initAssetState
      = Except.ok ({ el := scriptElemOf c5dInline, promiseResolved := true },
                   initAssetState) ∧
    initAssetState.body = [] :=
  ⟨rfl, rfl⟩

/-- **C5** (amended) For every script tag descriptor whose attrs carry no
src URL string, `loadJs` builds the script element, adds no URL to the
loaded-JS set, touches neither the DOM nor any other manager state, and
returns the element with an already-resolved load-promise. -/
theorem c5_amended_inline_script (d : TagJson) (s : AssetState)
    (htag : d.tag = "script") (hsrc : attrString d.attrs "src" = none) :
    loadJs d s = Except.ok ({ el := scriptElemOf d, promiseResolved := true }, s) := by
  have hce : createScriptElement d = Except.ok (scriptElemOf d) := by
    unfold createScriptElement scriptElemOf
    rw [if_neg (by rw [htag]; simp)]
  simp [loadJs, hce, hsrc]

/-- Witness for C5 (amended): a concrete descriptor with only a boolean
attribute. -/
theorem c5_amended_inline_script_witness :
    loadJs c5dDefer initAssetState
      = Except.ok ({ el := scriptElemOf c5dDefer, promiseResolved := true },
                   initAssetState) :=
  c5_amended_inline_script c5dDefer initAssetState rfl rfl

/-- **C6** Asset loading is idempotent per (kind, url): along any
sequence of manager asset calls at most one body node carries a given
`src` and at most one head node carries a given `href`; and a repeated
`loadJs` (resp. `loadCss`) for an already-loaded URL returns an
already-resolved promise (resp. no result) with the manager state
exactly equal to the state after the first call. -/
theorem c6_idempotent_asset_load :
    (∀ ops url,
      countJsNodes url (runAssetOps ops).body ≤ 1 ∧
      countCssNodes url (runAssetOps ops).head ≤ 1) ∧
    (∀ d s url, d.tag = "script" → attrString d.attrs "src" = some url →
      url ∈ s.loadedJs →
      loadJs d s = Except.ok ({ el := scriptElemOf d, promiseResolved := true }, s)) ∧
    (∀ d s url, d.tag = "link" → attrString d.attrs "href" = some url →
      url ∈ s.loadedCss → loadCss d s = Except.ok (none, s)) := by
  refine ⟨?_, ?_, ?_⟩
  · intro ops url
    obtain ⟨-, h2, -, h4⟩ := runAssetOps_inv ops url
    exact ⟨h2, h4⟩
  · intro d s url htag hsrc hmem
    have hce : createScriptElement d = Except.ok (scriptElemOf d) := by
      unfold createScriptElement scriptElemOf
      rw [if_neg (by rw [htag]; simp)]
    have his : isScriptLoaded "js" url s = Except.ok true := by
      unfold isScriptLoaded
      rw [if_neg (by decide)]
      simp [hmem]
    simp [loadJs, hce, hsrc, his]
  · intro d s url htag hhref hmem
    have hce : createLinkElement d = Except.ok (linkElemOf d) := by
      unfold createLinkElement linkElemOf
      rw [if_neg (by rw [htag]; simp)]
    have his : isScriptLoaded "css" url s = Except.ok true := by
      unfold isScriptLoaded
      rw [if_neg (by decide)]
      simp [hmem]
    simp [loadCss, hce, hhref, his]

/-- Witness for C6: loading the same concrete script twice appends once;
the second call returns a resolved promise and the untouched state. -/
theorem c6_idempotent_asset_load_witness :
    loadJs c6dJs c6sAfter
      = Except.ok ({ el := scriptElemOf c6dJs, promiseResolved := true }, c6sAfter) :=
  c6_idempotent_asset_load.2.1 c6dJs c6sAfter "/a.js" rfl rfl (by decide)

/-- **C7** The readiness predicate: `_isCallBlocked` returns `false`
exactly when (1) a non-empty callback list is registered for the call's
class-id, (2) if its data-hash is non-null a data factory is registered
under `(class-id, data-hash)`, and (3) if it has a wait-promise the
ledger holds a success (`null`) entry for its identity key; in
particular an absent or failure ledger entry counts as blocked. -/
theorem c7_readiness_predicate (s : MState) (c : PendingCall) :
    isCallBlocked s c = false ↔
      ((alGet s.components c.compClsId).getD [] ≠ [] ∧
       (∀ h, c.jsVarsHash = some h →
         (alGet s.componentInputs (c.compClsId ++ ":" ++ h)).isSome = true) ∧
       (c.hasWaitPromise = true →
         alGet s.ledger (getCallKey c.compClsId c.compId c.jsVarsHash) = some none)) := by
  unfold isCallBlocked
  rcases hcomp : alGet s.components c.compClsId with _ | fns
  · simp [hcomp]
  · cases fns with
    | nil => simp [hcomp]
    | cons f fs =>
      cases hh : c.jsVarsHash with
      | some h0 =>
        rcases hinp : alGet s.componentInputs (c.compClsId ++ ":" ++ h0) with _ | df
        · simp [hcomp, hh, hinp]
        · cases hw : c.hasWaitPromise with
          | false => simp [hcomp, hh, hinp, hw]
          | true =>
            rcases hled : alGet s.ledger
                (getCallKey c.compClsId c.compId (some h0)) with _ | st
            · simp [hcomp, hh, hinp, hw, hled]
            · cases st with
              | none => simp [hcomp, hh, hinp, hw, hled]
              | some err => simp [hcomp, hh, hinp, hw, hled]
      | none =>
        cases hw : c.hasWaitPromise with
        | false => simp [hcomp, hh, hw]
        | true =>
          rcases hled : alGet s.ledger
              (getCallKey c.compClsId c.compId none) with _ | st
          · simp [hcomp, hh, hw, hled]
          · cases st with
            | none => simp [hcomp, hh, hw, hled]
            | some err => simp [hcomp, hh, hw, hled]

/-- **C8** `markScriptLoaded` and `isScriptLoaded` throw the bad-kind
error exactly when the kind is outside the two-element set, and a
throwing `markScriptLoaded` leaves the manager state (loaded-URL sets and
pending-waiter map) exactly as before the call; `isScriptLoaded` never
changes state by construction. -/
theorem c8_bad_kind_atomic (ty url : String) (s : AssetState) :
    ((markScriptLoaded ty url s).1.isSome = true ↔ ¬(ty = "js" ∨ ty = "css")) ∧
    ((∃ e, isScriptLoaded ty url s = Except.error e) ↔ ¬(ty = "js" ∨ ty = "css")) ∧
    ((markScriptLoaded ty url s).1.isSome = true → (markScriptLoaded ty url s).2 = s) := by
  by_cases h : ty = "js" ∨ ty = "css"
  · have hcond : ¬(ty ≠ "js" ∧ ty ≠ "css") := by tauto
    have h1 : (markScriptLoaded ty url s).1 = none := by
      simp [markScriptLoaded, if_neg hcond]
    have h2 : ∀ e, isScriptLoaded ty url s ≠ Except.error e := by
      intro e
      simp [isScriptLoaded, if_neg hcond]
    refine ⟨?_, ?_, ?_⟩
    · simp [h1, h]
    · constructor
      · rintro ⟨e, he⟩
        exact absurd he (h2 e)
      · intro hcontra
        exact absurd h hcontra
    · intro hcontra
      rw [h1] at hcontra
      simp at hcontra
  · have hcond : ty ≠ "js" ∧ ty ≠ "css" := by tauto
    refine ⟨?_, ?_, ?_⟩
    · simp [markScriptLoaded, if_pos hcond, h]
    · constructor
      · intro _
        exact h
      · intro _
        exact ⟨"[DjangoComponents] isScriptLoaded received invalid script type "
          ++ ty ++ ". Must be one of js, css", by simp [isScriptLoaded, if_pos hcond]⟩
    · intro _
      simp [markScriptLoaded, if_pos hcond]

/-- Witness for C8: a concrete invalid kind throws and leaves the state
untouched. -/
theorem c8_bad_kind_atomic_witness :
    (markScriptLoaded "wasm" "/u.js" initAssetState).2 = initAssetState :=
  (c8_bad_kind_atomic "wasm" "/u.js" initAssetState).2.2 (by decide)

/-- **C2** (code-bug evidence) After two `waitForScriptsToLoad` calls for
the same not-yet-loaded URL, `markScriptLoaded` resolves only the waiter
created by the second call (id 1); the latch handed out first (id 0) is
never resolved, because the existence check reads key `url` while
entries are stored under `kind:url`, so the second call overwrites the
shared waiter. -/
theorem c2_first_waiter_never_resolved :
    (waitForScriptsToLoad "js" ["/a.js"] initAssetState).1
        = Except.ok [WaitResult.waiter 0] ∧
    (waitForScriptsToLoad "js" ["/a.js"]
        (waitForScriptsToLoad "js" ["/a.js"] initAssetState).2).1
        = Except.ok [WaitResult.waiter 1] ∧
    (markScriptLoaded "js" "/a.js"
        (waitForScriptsToLoad "js" ["/a.js"]
          (waitForScriptsToLoad "js" ["/a.js"] initAssetState).2).2).2.resolveCalls
        = [1] :=
  ⟨rfl, rfl, rfl⟩

/-! ### Scheduler lemmas -/

/-- Shape of the state produced by `queueComponentCall`. -/
theorem queueComponentCall_eq (compClsId compId : String) (jsVarsHash : Option String)
    (hasWait : Bool) (s : MState) :
    queueComponentCall compClsId compId jsVarsHash hasWait s =
      (s.nextCallIdx,
       { s with
         queue := s.queue ++ [mkCall compClsId compId jsVarsHash hasWait s.nextCallIdx],
         promises := s.promises ++ [(s.nextCallIdx, PromiseStatus.pending)],
         nextCallIdx := s.nextCallIdx + 1,
         warningArmed := true }) := by
  unfold queueComponentCall
  dsimp only
  rw [if_pos (by simp)]

/-- A call with no wait-promise never trips the failed-wait check. -/
theorem waitFailed_of_no_wait (c : PendingCall) (ledger : List (String × Option String))
    (hw : c.hasWaitPromise = false) : waitFailed c ledger = none := by
  simp [waitFailed, hw]

/-- A recorded failure for the head's key trips the failed-wait check. -/
theorem waitFailed_of_failure (c : PendingCall) (ledger : List (String × Option String))
    (err : String) (hw : c.hasWaitPromise = true)
    (hst : alGet ledger (getCallKey c.compClsId c.compId c.jsVarsHash) = some (some err)) :
    waitFailed c ledger = some err := by
  simp [waitFailed, hw, hst]

/-- Drain step on a head whose wait-promise failed: flush, clear the
ledger, reset the guard, throw. -/
theorem drainLoop_failed (fuel : Nat) (s : MState) (c : PendingCall)
    (rest : List PendingCall) (err : String)
    (hq : s.queue = c :: rest) (hwf : waitFailed c s.ledger = some err) :
    drainLoop (fuel + 1) s =
      DrainOut.thrown (scriptLoadFailMsg c err)
        { s with queue := [], ledger := [], isProcessing := false } := by
  simp only [drainLoop, hq, hwf]

/-- Drain step on a blocked head: stop. -/
theorem drainLoop_blocked (fuel : Nat) (s : MState) (c : PendingCall)
    (rest : List PendingCall)
    (hq : s.queue = c :: rest) (hwf : waitFailed c s.ledger = none)
    (hnb : isCallBlocked s c = true) :
    drainLoop (fuel + 1) s = DrainOut.done s := by
  simp only [drainLoop, hq, hwf, hnb, if_true]

/-- Drain step on an unblocked head: shift it, execute it, settle its
observing promise from the result, and continue with the rest of the
queue; no other call's promise or ledger entry is touched. -/
theorem drainLoop_step (fuel : Nat) (s : MState) (c : PendingCall)
    (rest : List PendingCall)
    (hq : s.queue = c :: rest) (hwf : waitFailed c s.ledger = none)
    (hnb : isCallBlocked s c = false) :
    drainLoop (fuel + 1) s =
      (match callUnblockedComponent s.components s.componentInputs s.dom
          c.compClsId c.compId c.jsVarsHash with
       | Except.ok v =>
         drainLoop fuel
           (if c.hasResolve then
              setPromise (shiftCall s c rest) c.callIdx (PromiseStatus.resolvedWith v)
            else shiftCall s c rest)
       | Except.error e =>
         drainLoop fuel
           (if c.hasReject then
              setPromise (shiftCall s c rest) c.callIdx (PromiseStatus.rejectedWith e)
            else { shiftCall s c rest with consoleErrors :=
                     (shiftCall s c rest).consoleErrors ++ [execErrMsg c e] })) := by
  simp only [drainLoop, hq, hwf, hnb, if_false, Bool.false_eq_true]

/-- A drain request on a busy manager is a no-op (re-entrancy guard). -/
theorem processPendingCalls_guard (s : MState) (hp : s.isProcessing = true) :
    processPendingCalls s = s := by
  simp [processPendingCalls, hp]

/-- Unfolding of `_processPendingCalls` when the guard is clear. -/
theorem processPendingCalls_eq (s : MState) (hp : s.isProcessing = false) :
    processPendingCalls s =
      (match drainLoop s.queue.length { s with isProcessing := true } with
       | DrainOut.done s1 =>
         { (if s1.queue.isEmpty && s1.warningArmed then
              { s1 with warningArmed := false }
            else s1) with isProcessing := false }
       | DrainOut.thrown e s1 =>
         { s1 with fatalErrors := s1.fatalErrors ++ [e] }) := by
  unfold processPendingCalls
  dsimp only
  rw [if_neg (by simp [hp])]

/-- **C3** (amended) When the drain inspects a head activation whose
wait-promise is recorded as failed, it (a) empties the activation queue,
(b) clears the ledger, (c) resets the re-entrancy flag, and (d) throws a
script-load-failed error identifying that activation and wrapping the
recorded error out of the drain; the observing promises of the dropped
activations and the stall-reporter timer are left untouched (the throw
bypasses the cleanup that would disarm the timer). -/
theorem c3_amended_flush_on_failed_wait (s : MState) (c : PendingCall)
    (rest : List PendingCall) (err : String)
    (hproc : s.isProcessing = false)
    (hq : s.queue = c :: rest)
    (hw : c.hasWaitPromise = true)
    (hst : alGet s.ledger (getCallKey c.compClsId c.compId c.jsVarsHash)
      = some (some err)) :
    processPendingCalls s =
      { s with queue := [], ledger := [], isProcessing := false,
               fatalErrors := s.fatalErrors ++ [scriptLoadFailMsg c err] } := by
  rw [processPendingCalls_eq s hproc]
  have hq1 : ({ s with isProcessing := true } : MState).queue = c :: rest := hq
  have hwf : waitFailed c ({ s with isProcessing := true } : MState).ledger = some err :=
    waitFailed_of_failure c s.ledger err hw hst
  have hlen : s.queue.length = rest.length + 1 := by rw [hq]; rfl
  rw [hlen, drainLoop_failed rest.length _ c rest err hq1 hwf]

/-- **C3** (counterexample) In the concrete failing run the drain does
flush the queue, clear the ledger, throw the identifying error and leave
the dropped activation's observing promise pending — but the
stall-reporter timer is still armed afterwards, refuting part (c) of the
claim as stated. -/
theorem c3_counterexample_timer_left_armed :
    c3run.warningArmed = true ∧ c3run.queue = [] ∧ c3run.ledger = [] ∧
    c3run.fatalErrors = [scriptLoadFailMsg c3call "boom"] ∧
    alGet c3run.promises 0 = some PromiseStatus.pending :=
  ⟨rfl, rfl, rfl, rfl, rfl⟩

/-- Witness for C3 (amended): the flush-and-throw at a concrete state. -/
theorem c3_amended_flush_on_failed_wait_witness :
    processPendingCalls c3state =
      { c3state with queue := [], ledger := [], isProcessing := false,
                     fatalErrors := c3state.fatalErrors ++ [scriptLoadFailMsg c3call "boom"] } :=
  c3_amended_flush_on_failed_wait c3state c3call [] "boom" rfl rfl rfl rfl

/-- `alGet` skips a prefix in which the key does not occur. -/
theorem alGet_append_of_none {κ α : Type} [BEq κ] (l l2 : List (κ × α)) (k : κ)
    (h : alGet l k = none) : alGet (l ++ l2) k = alGet l2 k := by
  induction l with
  | nil => rfl
  | cons p rest ih =>
    obtain ⟨k0, v0⟩ := p
    rw [alGet_cons] at h
    by_cases hk : k0 == k
    · rw [if_pos hk] at h
      cases h
    · rw [if_neg hk] at h
      rw [List.cons_append, alGet_cons, if_neg hk]
      exact ih h

/-- Settling a freshly appended pending promise makes its status
observable. -/
theorem alGet_map_update_fresh (l : List (Nat × PromiseStatus)) (idx : Nat)
    (st : PromiseStatus) (hfresh : alGet l idx = none) :
    alGet ((l ++ [(idx, PromiseStatus.pending)]).map (fun p =>
      if p.1 = idx then
        match p.2 with
        | PromiseStatus.pending => (p.1, st)
        | other => (p.1, other)
      else p)) idx = some st := by
  induction l with
  | nil => simp [alGet, List.find?]
  | cons p rest ih =>
    obtain ⟨k0, v0⟩ := p
    rw [alGet_cons] at hfresh
    by_cases hk : k0 == idx
    · rw [if_pos hk] at hfresh
      cases hfresh
    · rw [if_neg hk] at hfresh
      have hk1 : ¬(k0 = idx) := by simpa using hk
      rw [List.cons_append, List.map_cons]
      dsimp only
      rw [if_neg hk1, alGet_cons, if_neg hk]
      exact ih hfresh

/-- A call with neither data-hash nor wait-promise is unblocked as soon
as a non-empty callback list is registered. -/
theorem isCallBlocked_simple (t : MState) (clsId compId : String) (idx : Nat)
    (fns : List CompFn) (hcomp : alGet t.components clsId = some fns)
    (hne : fns.isEmpty = false) :
    isCallBlocked t (mkCall clsId compId none false idx) = false := by
  simp [isCallBlocked, mkCall, hcomp, hne]

/-- Full drain of a one-element queue whose head executes successfully:
the head is shifted, executed, its promise resolved, and the
stall-reporter disarmed. -/
theorem processPendingCalls_single_ok (t : MState) (c : PendingCall) (v : Nat)
    (hproc : t.isProcessing = false)
    (hq : t.queue = [c])
    (hwa : t.warningArmed = true)
    (hwf : waitFailed c t.ledger = none)
    (hnb : isCallBlocked t c = false)
    (hres : c.hasResolve = true)
    (hexec : callUnblockedComponent t.components t.componentInputs t.dom
      c.compClsId c.compId c.jsVarsHash = Except.ok v) :
    processPendingCalls t =
      { setPromise (shiftCall { t with isProcessing := true } c []) c.callIdx
          (PromiseStatus.resolvedWith v) with
        warningArmed := false, isProcessing := false } := by
  rw [processPendingCalls_eq t hproc]
  have hq1 : ({ t with isProcessing := true } : MState).queue = [c] := hq
  have hlen : t.queue.length = 1 := by rw [hq]; rfl
  rw [hlen, drainLoop_step 0 _ c [] hq1 hwf hnb]
  dsimp only
  rw [hexec, hres]
  dsimp only [drainLoop, if_true]
  rw [hwa]
  rfl

/-- **C4** (counterexample) With a callback already registered for
`table` and an element for `i1` in the document, enqueueing
`("table","i1",null,no-wait)` leaves the activation unexecuted and its
observing promise pending: `queueComponentCall` does not trigger a
drain, so nothing processes the queue. -/
theorem c4_counterexample_not_executed :
    alGet c4run.promises 0 = some PromiseStatus.pending ∧
    c4run.execLog = [] ∧ c4run.queue.length = 1 :=
  ⟨rfl, rfl, rfl⟩

/-- **C4** (amended) With a callback already registered and elements
present, a call enqueued with no data-hash and no wait-promise is
executed — and its observing promise resolved with the final callback's
value — as soon as the next drain runs; the enqueue itself does not
trigger that drain. -/
theorem c4_amended_resolved_after_drain (s : MState) (clsId compId : String)
    (fns : List CompFn) (v : Nat)
    (hproc : s.isProcessing = false) (hq : s.queue = [])
    (hcomp : alGet s.components clsId = some fns) (hne : fns.isEmpty = false)
    (hfresh : alGet s.promises s.nextCallIdx = none)
    (hexec : callUnblockedComponent s.components s.componentInputs s.dom
      clsId compId none = Except.ok v) :
    alGet (processPendingCalls
        (queueComponentCall clsId compId none false s).2).promises s.nextCallIdx
      = some (PromiseStatus.resolvedWith v) ∧
    (processPendingCalls (queueComponentCall clsId compId none false s).2).execLog
      = s.execLog ++ [s.nextCallIdx] := by
  rw [queueComponentCall_eq]
  dsimp only
  have hstep := processPendingCalls_single_ok
    { s with queue := s.queue ++ [mkCall clsId compId none false s.nextCallIdx],
             promises := s.promises ++ [(s.nextCallIdx, PromiseStatus.pending)],
             nextCallIdx := s.nextCallIdx + 1, warningArmed := true }
    (mkCall clsId compId none false s.nextCallIdx) v hproc
    (by dsimp only; rw [hq]; rfl) rfl
    (waitFailed_of_no_wait _ _ rfl)
    (isCallBlocked_simple _ clsId compId s.nextCallIdx fns hcomp hne)
    rfl hexec
  rw [hstep]
  exact ⟨alGet_map_update_fresh s.promises s.nextCallIdx _ hfresh, rfl⟩

/-- Witness for C4 (amended): the concrete registered state, an enqueue,
then a drain; the promise resolves with 7. -/
theorem c4_amended_resolved_after_drain_witness :
    alGet (processPendingCalls
        (queueComponentCall "table" "i1" none false c4reg).2).promises c4reg.nextCallIdx
      = some (PromiseStatus.resolvedWith 7) ∧
    (processPendingCalls (queueComponentCall "table" "i1" none false c4reg).2).execLog
      = c4reg.execLog ++ [c4reg.nextCallIdx] :=
  c4_amended_resolved_after_drain c4reg "table" "i1" [c4fn] 7 rfl rfl rfl rfl rfl rfl

/-- Removing one ledger key leaves every other key's entry unchanged. -/
theorem alGet_alRemove_ne {κ α : Type} [BEq κ] [LawfulBEq κ]
    (m : List (κ × α)) (k0 k : κ) (hne : ¬(k = k0)) :
    alGet (alRemove m k0) k = alGet m k := by
  induction m with
  | nil => rfl
  | cons p rest ih =>
    obtain ⟨k1, v1⟩ := p
    by_cases hk1 : k1 == k0
    · rw [show alRemove ((k1, v1) :: rest) k0 = alRemove rest k0 from by
        simp [alRemove, List.filter_cons, hk1]]
      rw [ih, alGet_cons, if_neg]
      intro hk1k
      exact hne (by rw [← eq_of_beq hk1k, eq_of_beq hk1])
    · rw [show alRemove ((k1, v1) :: rest) k0 = (k1, v1) :: alRemove rest k0 from by
        simp [alRemove, List.filter_cons, hk1]]
      rw [alGet_cons, alGet_cons]
      by_cases hk1k : k1 == k
      · rw [if_pos hk1k, if_pos hk1k]
      · rw [if_neg hk1k, if_neg hk1k]
        exact ih

/-- Settling one promise leaves every other promise's status unchanged. -/
theorem alGet_promMap_ne (l : List (Nat × PromiseStatus)) (idx j : Nat)
    (st : PromiseStatus) (hne : ¬(j = idx)) :
    alGet (l.map (fun p =>
      if p.1 = idx then
        match p.2 with
        | PromiseStatus.pending => (p.1, st)
        | other => (p.1, other)
      else p)) j = alGet l j := by
  induction l with
  | nil => rfl
  | cons p rest ih =>
    obtain ⟨k, v⟩ := p
    rw [List.map_cons]
    dsimp only
    by_cases hk : k = idx
    · rw [if_pos hk]
      have hkj : (k == j) = false := by
        subst hk
        simpa using fun hc => hne hc.symm
      cases v <;>
        · rw [alGet_cons, if_neg (by simp [hkj]), alGet_cons, if_neg (by simp [hkj])]
          exact ih
    · rw [if_neg hk, alGet_cons, alGet_cons]
      by_cases hkj : k == j
      · rw [if_pos hkj, if_pos hkj]
      · rw [if_neg hkj, if_neg hkj]
        exact ih

/-- **C9** Callback failures are isolated: when the head activation's
execution fails, the drain rejects only that activation's observing
promise (or logs to the console when no rejecter is stored), removes
only that activation's ledger entry, does not flush the queue, and
continues draining the remaining activations — the step is exactly a
recursive drain on the rest of the queue; other calls' promises and
ledger entries are untouched. -/
theorem c9_callback_failure_isolated (fuel : Nat) (s : MState) (c : PendingCall)
    (rest : List PendingCall) (e : String)
    (hq : s.queue = c :: rest)
    (hwf : waitFailed c s.ledger = none)
    (hnb : isCallBlocked s c = false)
    (hexec : callUnblockedComponent s.components s.componentInputs s.dom
      c.compClsId c.compId c.jsVarsHash = Except.error e) :
    (drainLoop (fuel + 1) s =
      drainLoop fuel
        (if c.hasReject then
           setPromise (shiftCall s c rest) c.callIdx (PromiseStatus.rejectedWith e)
         else { shiftCall s c rest with consoleErrors :=
                  (shiftCall s c rest).consoleErrors ++ [execErrMsg c e] })) ∧
    (shiftCall s c rest).queue = rest ∧
    (∀ k2, ¬(k2 = getCallKey c.compClsId c.compId c.jsVarsHash) →
      alGet (shiftCall s c rest).ledger k2 = alGet s.ledger k2) ∧
    (∀ j, ¬(j = c.callIdx) →
      alGet (setPromise (shiftCall s c rest) c.callIdx
        (PromiseStatus.rejectedWith e)).promises j = alGet s.promises j) := by
  refine ⟨?_, rfl, ?_, ?_⟩
  · rw [drainLoop_step fuel s c rest hq hwf hnb, hexec]
  · intro k2 hk2
    dsimp only [shiftCall]
    by_cases hw : c.hasWaitPromise
    · rw [if_pos hw]
      exact alGet_alRemove_ne s.ledger _ k2 hk2
    · rw [if_neg hw]
  · intro j hj
    exact alGet_promMap_ne s.promises c.callIdx j _ hj

/-- Witness for C9: a concrete two-call queue whose head fails; the
drain step rejects the head's promise and recurses on the tail. -/
theorem c9_callback_failure_isolated_witness :
    drainLoop 2 c9state =
      drainLoop 1
        (if c9call.hasReject then
           setPromise (shiftCall c9state c9call [c9next]) c9call.callIdx
             (PromiseStatus.rejectedWith "cb failed")
         else { shiftCall c9state c9call [c9next] with consoleErrors :=
                  (shiftCall c9state c9call [c9next]).consoleErrors
                    ++ [execErrMsg c9call "cb failed"] }) :=
  (c9_callback_failure_isolated 1 c9state c9call [c9next] "cb failed" rfl rfl rfl rfl).1

/-- Shifting the head moves its serial from the queue part of the trace
measure to the executed part, leaving the measure itself unchanged. -/
theorem Lm_shiftCall (s : MState) (c : PendingCall) (rest : List PendingCall)
    (hq : s.queue = c :: rest) : Lm (shiftCall s c rest) = Lm s := by
  dsimp only [Lm, shiftCall]
  rw [hq, List.map_cons, List.append_assoc]
  rfl

/-- The drain only consumes the trace measure (it executes prefixes of
the queue in order and never invents or reorders serials), and it hands
out no new serials. -/
theorem drainLoop_Lm (fuel : Nat) (s : MState) :
    List.Sublist (Lm (drainLoop fuel s).state) (Lm s) ∧
    (drainLoop fuel s).state.nextCallIdx = s.nextCallIdx := by
  induction fuel generalizing s with
  | zero => exact ⟨List.Sublist.refl _, rfl⟩
  | succ fuel ih =>
    cases hq : s.queue with
    | nil =>
      rw [show drainLoop (fuel + 1) s = DrainOut.done s from by simp only [drainLoop, hq]]
      exact ⟨List.Sublist.refl _, rfl⟩
    | cons c rest =>
      cases hwf : waitFailed c s.ledger with
      | some err =>
        rw [drainLoop_failed fuel s c rest err hq hwf]
        constructor
        · dsimp only [DrainOut.state, Lm]
          simp only [List.map_nil, List.append_nil]
          exact List.sublist_append_left _ _
        · rfl
      | none =>
        cases hnb : isCallBlocked s c with
        | true =>
          rw [drainLoop_blocked fuel s c rest hq hwf hnb]
          exact ⟨List.Sublist.refl _, rfl⟩
        | false =>
          rw [drainLoop_step fuel s c rest hq hwf hnb]
          cases hex : callUnblockedComponent s.components s.componentInputs s.dom
              c.compClsId c.compId c.jsVarsHash with
          | ok v =>
            dsimp only
            have hLmX : Lm (if c.hasResolve then
                setPromise (shiftCall s c rest) c.callIdx (PromiseStatus.resolvedWith v)
              else shiftCall s c rest) = Lm s := by
              cases hr : c.hasResolve <;> simp only [hr, if_true, if_false,
                Bool.false_eq_true] <;> exact Lm_shiftCall s c rest hq
            have hXn : (if c.hasResolve then
                setPromise (shiftCall s c rest) c.callIdx (PromiseStatus.resolvedWith v)
              else shiftCall s c rest).nextCallIdx = s.nextCallIdx := by
              cases hr : c.hasResolve <;> simp only [hr, if_true, if_false,
                Bool.false_eq_true] <;> rfl
            obtain ⟨ihs, ihn⟩ := ih (if c.hasResolve then
                setPromise (shiftCall s c rest) c.callIdx (PromiseStatus.resolvedWith v)
              else shiftCall s c rest)
            rw [hLmX] at ihs
            rw [hXn] at ihn
            exact ⟨ihs, ihn⟩
          | error e =>
            dsimp only
            have hLmX : Lm (if c.hasReject then
                setPromise (shiftCall s c rest) c.callIdx (PromiseStatus.rejectedWith e)
              else { shiftCall s c rest with consoleErrors :=
                       (shiftCall s c rest).consoleErrors ++ [execErrMsg c e] }) = Lm s := by
              cases hr : c.hasReject <;> simp only [hr, if_true, if_false,
                Bool.false_eq_true] <;> exact Lm_shiftCall s c rest hq
            have hXn : (if c.hasReject then
                setPromise (shiftCall s c rest) c.callIdx (PromiseStatus.rejectedWith e)
              else { shiftCall s c rest with consoleErrors :=
                       (shiftCall s c rest).consoleErrors ++ [execErrMsg c e] }).nextCallIdx
                = s.nextCallIdx := by
              cases hr : c.hasReject <;> simp only [hr, if_true, if_false,
                Bool.false_eq_true] <;> rfl
            obtain ⟨ihs, ihn⟩ := ih (if c.hasReject then
                setPromise (shiftCall s c rest) c.callIdx (PromiseStatus.rejectedWith e)
              else { shiftCall s c rest with consoleErrors :=
                       (shiftCall s c rest).consoleErrors ++ [execErrMsg c e] })
            rw [hLmX] at ihs
            rw [hXn] at ihn
            exact ⟨ihs, ihn⟩

/-- `_processPendingCalls` only consumes the trace measure. -/
theorem processPendingCalls_Lm (s : MState) :
    List.Sublist (Lm (processPendingCalls s)) (Lm s) ∧
    (processPendingCalls s).nextCallIdx = s.nextCallIdx := by
  by_cases hp : s.isProcessing
  · rw [processPendingCalls_guard s hp]
    exact ⟨List.Sublist.refl _, rfl⟩
  · rw [processPendingCalls_eq s (by revert hp; cases s.isProcessing <;> simp)]
    obtain ⟨hsub, hidx⟩ := drainLoop_Lm s.queue.length { s with isProcessing := true }
    cases hdl : drainLoop s.queue.length { s with isProcessing := true } with
    | done s1 =>
      rw [hdl] at hsub hidx
      dsimp only [DrainOut.state] at hsub hidx
      have hL : Lm { (if s1.queue.isEmpty && s1.warningArmed then
            { s1 with warningArmed := false } else s1) with isProcessing := false }
          = Lm s1 := by
        by_cases hcl : s1.queue.isEmpty && s1.warningArmed
        · rw [if_pos hcl]
          rfl
        · rw [if_neg hcl]
          rfl
      have hN : ({ (if s1.queue.isEmpty && s1.warningArmed then
            { s1 with warningArmed := false } else s1) with isProcessing := false } :
            MState).nextCallIdx = s1.nextCallIdx := by
        by_cases hcl : s1.queue.isEmpty && s1.warningArmed
        · rw [if_pos hcl]
        · rw [if_neg hcl]
      rw [hL, hN]
      exact ⟨hsub, hidx⟩
    | thrown e s1 =>
      rw [hdl] at hsub hidx
      dsimp only [DrainOut.state] at hsub hidx
      exact ⟨hsub, hidx⟩

/-- Every manager event preserves the scheduler invariant. -/
theorem stepEvent_QInv (s : MState) (ev : MEvent) (h : QInv s) :
    QInv (stepEvent s ev) := by
  have hstep : ∀ (t : MState), Lm t = Lm s → t.nextCallIdx = s.nextCallIdx →
      QInv (processPendingCalls t) := by
    intro t hL hN
    obtain ⟨hsub, hidx⟩ := processPendingCalls_Lm t
    rw [hL] at hsub
    rw [hN] at hidx
    exact ⟨List.Pairwise.sublist hsub h.1,
           fun i hi => by rw [hidx]; exact h.2 i (hsub.subset hi)⟩
  cases ev with
  | register compClsId fn => exact hstep _ rfl rfl
  | registerData compClsId jsVarsHash f => exact hstep _ rfl rfl
  | settleWait compClsId compId hash outcome => exact hstep _ rfl rfl
  | drain => exact hstep s rfl rfl
  | enqueue compClsId compId hash hasWait =>
    show QInv (queueComponentCall compClsId compId hash hasWait s).2
    rw [queueComponentCall_eq]
    dsimp only
    have hLm : Lm { s with
        queue := s.queue ++ [mkCall compClsId compId hash hasWait s.nextCallIdx],
        promises := s.promises ++ [(s.nextCallIdx, PromiseStatus.pending)],
        nextCallIdx := s.nextCallIdx + 1,
        warningArmed := true } = Lm s ++ [s.nextCallIdx] := by
      dsimp only [Lm]
      rw [List.map_append, ← List.append_assoc]
      rfl
    constructor
    · rw [hLm, List.pairwise_append]
      refine ⟨h.1, List.pairwise_singleton _ _, ?_⟩
      intro a ha b hb
      rw [List.mem_singleton.mp hb]
      exact h.2 a ha
    · intro i hi
      rw [hLm] at hi
      rcases List.mem_append.mp hi with hi | hi
      · exact Nat.lt_succ_of_lt (h.2 i hi)
      · rw [List.mem_singleton.mp hi]
        exact Nat.lt_succ_self _

/-- **C1** FIFO execution: in every run of the manager — any
interleaving of registrations, enqueues, wait-promise settlements and
drain requests, over any document — the ghost log of entries into
`callUnblockedComponent` is strictly increasing in the enqueue serial
numbers assigned by `queueComponentCall`.  Hence for every two
activations A and B with A enqueued before B, A enters execution before
B does (and no activation is executed twice); the drain only ever
executes the queue head. -/
theorem c1_fifo_execution (dom : List String) (es : List MEvent) :
    List.Pairwise (fun a b => a < b) (runEvents dom es).execLog := by
  have hrun : ∀ (l : List MEvent) (t : MState), QInv t → QInv (l.foldl stepEvent t) := by
    intro l
    induction l with
    | nil => exact fun t ht => ht
    | cons ev rest ih => exact fun t ht => ih _ (stepEvent_QInv t ev ht)
  have hinit : QInv (initMState dom) := by
    have hLm : Lm (initMState dom) = [] := rfl
    constructor
    · rw [hLm]
      exact List.Pairwise.nil
    · intro i hi
      rw [hLm] at hi
      cases hi
  have h := hrun es (initMState dom) hinit
  exact List.Pairwise.sublist (List.sublist_append_left _ _) h.1

/-! ### Heap-model lemmas (C10) -/

/-- Callback writes never change the heap length. -/
theorem applyWrites_length (ws : List (Nat × Nat)) (h : Heap) :
    (applyWrites ws h).length = h.length := by
  unfold applyWrites
  induction ws generalizing h with
  | nil => rfl
  | cons w rest ih =>
    rw [List.foldl_cons, ih]
    exact List.length_set ..

/-- The callback loop passes the same data address and context to every
callback, threads the heap from each callback to the next, preserves the
heap length, and — on success — invokes every callback exactly once. -/
theorem runCallbacksH_spec (fns : List HCompFn) (d : Nat) (ctx : Ctx) (h : Heap)
    (entries : List CallTraceEntry) (res : Except String Nat) (h2 : Heap)
    (heq : runCallbacksH fns d ctx h = (entries, res, h2)) :
    (∀ entry ∈ entries, entry.dataArg = d ∧ entry.ctxArg = ctx) ∧
    (∀ e1, entries.head? = some e1 → e1.heapIn = h) ∧
    (∀ i e1 e2, entries.get? i = some e1 → entries.get? (i + 1) = some e2 →
      e2.heapIn = e1.heapOut) ∧
    h2.length = h.length ∧
    (∀ v, res = Except.ok v → entries.length = fns.length) := by
  induction fns generalizing h entries res h2 with
  | nil =>
    unfold runCallbacksH at heq
    simp only [Prod.mk.injEq] at heq
    obtain ⟨he, hr, hh⟩ := heq
    subst he hh
    refine ⟨by simp, by simp, ?_, rfl, fun v hv => rfl⟩
    intro i e1 e2 h1 hsucc
    rw [List.get?_nil] at h1
    cases h1
  | cons fn rest ih =>
    unfold runCallbacksH at heq
    rcases hf : fn d ctx h with ⟨ws, res0⟩
    rw [hf] at heq
    dsimp only at heq
    cases res0 with
    | error e =>
      simp only [Prod.mk.injEq] at heq
      obtain ⟨he, hr, hh⟩ := heq
      subst he hh
      refine ⟨?_, ?_, ?_, applyWrites_length ws h, ?_⟩
      · intro entry hmem
        rw [List.mem_singleton.mp hmem]
        exact ⟨rfl, rfl⟩
      · intro e1 h1
        rw [List.head?_cons] at h1
        injection h1 with h1
        rw [← h1]
      · intro i e1 e2 h1 hsucc
        rw [List.get?_cons_succ, List.get?_nil] at hsucc
        cases hsucc
      · intro v hv
        rw [← hr] at hv
        cases hv
    | ok v0 =>
      cases rest with
      | nil =>
        simp only [Prod.mk.injEq] at heq
        obtain ⟨he, hr, hh⟩ := heq
        subst he hh
        refine ⟨?_, ?_, ?_, applyWrites_length ws h, ?_⟩
        · intro entry hmem
          rw [List.mem_singleton.mp hmem]
          exact ⟨rfl, rfl⟩
        · intro e1 h1
          rw [List.head?_cons] at h1
          injection h1 with h1
          rw [← h1]
        · intro i e1 e2 h1 hsucc
          rw [List.get?_cons_succ, List.get?_nil] at hsucc
          cases hsucc
        · intro v hv
          rfl
      | cons fn2 rest2 =>
        rcases hrec : runCallbacksH (fn2 :: rest2) d ctx (applyWrites ws h)
          with ⟨entries2, res2, h3⟩
        rw [hrec] at heq
        dsimp only at heq
        simp only [Prod.mk.injEq] at heq
        obtain ⟨he, hr, hh⟩ := heq
        subst he hr hh
        obtain ⟨ih1, ih2, ih3, ih4, ih5⟩ := ih (applyWrites ws h) entries2 res2 h3 hrec
        refine ⟨?_, ?_, ?_, ?_, ?_⟩
        · intro entry hmem
          rcases List.mem_cons.mp hmem with hmem | hmem
          · rw [hmem]
            exact ⟨rfl, rfl⟩
          · exact ih1 entry hmem
        · intro e1 h1
          rw [List.head?_cons] at h1
          injection h1 with h1
          rw [← h1]
        · intro i e1 e2 h1 hsucc
          cases i with
          | zero =>
            rw [List.get?_cons_zero] at h1
            injection h1 with h1
            rw [List.get?_cons_succ, List.get?_zero] at hsucc
            rw [ih2 e2 hsucc, ← h1]
          | succ i2 =>
            rw [List.get?_cons_succ] at h1 hsucc
            exact ih3 i2 e1 e2 h1 hsucc
        · rw [ih4]
          exact applyWrites_length ws h
        · intro v hv
          rw [List.length_cons, List.length_cons, ih5 v hv, List.length_cons]

/-- One successful heap-model execution: the factory allocates exactly
one fresh object (at the pre-execution heap end), every callback gets
that same object and the same context, the heap is threaded callback to
callback, and the heap grows by exactly the one allocation. -/
theorem callUnblockedComponentH_spec (componentsH : List (String × List HCompFn))
    (componentInputsH : List (String × Nat)) (dom : List String)
    (clsId compId hs : String) (v : Nat) (fns : List HCompFn) (h : Heap)
    (tr : HTrace) (r : Nat) (h2 : Heap)
    (hcomp : alGet componentsH clsId = some fns)
    (hinp : alGet componentInputsH (clsId ++ ":" ++ hs) = some v)
    (hexec : callUnblockedComponentH componentsH componentInputsH dom clsId compId
      (some hs) h = Except.ok (tr, r, h2)) :
    tr.allocs = [h.length] ∧
    tr.calls.length = fns.length ∧
    (∀ entry ∈ tr.calls, entry.dataArg = h.length ∧
      entry.ctxArg = { name := clsId, id := compId,
                       els := dom.filter (fun m => m == compId) }) ∧
    (∀ e1, tr.calls.head? = some e1 → e1.heapIn = h ++ [v]) ∧
    (∀ i e1 e2, tr.calls.get? i = some e1 → tr.calls.get? (i + 1) = some e2 →
      e2.heapIn = e1.heapOut) ∧
    h2.length = h.length + 1 := by
  unfold callUnblockedComponentH at hexec
  rw [hcomp] at hexec
  split at hexec
  · rename_i heq
    cases heq
  · rename_i initFns heq
    injection heq with heq2
    subst heq2
    split at hexec
    · cases hexec
    · split at hexec
      · cases hexec
      · have hdata : lookupJsData componentInputsH clsId (some hs) = Except.ok v := by
          simp [lookupJsData, hinp]
        rw [hdata] at hexec
        split at hexec
        · rename_i e heq3
          simp at heq3
        · rename_i v2 heq3
          injection heq3 with hv2
          subst hv2
          rcases hrun : runCallbacksH fns h.length
              { name := clsId, id := compId,
                els := dom.filter (fun m => m == compId) } (h ++ [v])
            with ⟨entries, res, hF⟩
          rw [hrun] at hexec
          split at hexec
          · cases hexec
          · rename_i entries2 r2 hF2 heq4
            simp only [Prod.mk.injEq] at heq4
            obtain ⟨he2, hr2, hh2⟩ := heq4
            simp only [Except.ok.injEq, Prod.mk.injEq] at hexec
            obtain ⟨htr, hrr, hhh⟩ := hexec
            subst hhh
            obtain ⟨s1, s2, s3, s4, s5⟩ := runCallbacksH_spec fns h.length
              { name := clsId, id := compId,
                els := dom.filter (fun m => m == compId) }
              (h ++ [v]) entries res hF hrun
            refine ⟨?_, ?_, ?_, ?_, ?_, ?_⟩
            · rw [← htr]
            · rw [← htr]
              dsimp only
              rw [← he2]
              exact s5 r2 hr2
            · rw [← htr]
              dsimp only
              intro entry hmem
              rw [← he2] at hmem
              exact s1 entry hmem
            · rw [← htr]
              dsimp only
              intro e1 h1
              rw [← he2] at h1
              exact s2 e1 h1
            · rw [← htr]
              dsimp only
              intro i e1 e2 h1 hsucc
              rw [← he2] at h1 hsucc
              exact s3 i e1 e2 h1 hsucc
            · rw [← hh2, s4, List.length_append]
              rfl

/-- **C10** During one execution of an activation with a non-null
data-hash, the data factory is invoked exactly once, allocating one
fresh object; every callback in the chain is invoked exactly once with
that identical data object and the identical context record
`(name, id, els)`; the heap is threaded from each callback to the next,
so a mutation by an earlier callback is visible to every later callback
of the same activation; and a second activation with the same data-hash
run afterwards allocates a distinct object (a fresh factory
invocation). -/
theorem c10_single_factory_shared_object (componentsH : List (String × List HCompFn))
    (componentInputsH : List (String × Nat)) (dom : List String)
    (clsId compId hs : String) (v : Nat) (fns : List HCompFn) (h : Heap)
    (tr : HTrace) (r : Nat) (h2 : Heap)
    (hcomp : alGet componentsH clsId = some fns)
    (hinp : alGet componentInputsH (clsId ++ ":" ++ hs) = some v)
    (hexec : callUnblockedComponentH componentsH componentInputsH dom clsId compId
      (some hs) h = Except.ok (tr, r, h2)) :
    tr.allocs = [h.length] ∧
    tr.calls.length = fns.length ∧
    (∀ entry ∈ tr.calls, entry.dataArg = h.length ∧
      entry.ctxArg = { name := clsId, id := compId,
                       els := dom.filter (fun m => m == compId) }) ∧
    (∀ e1, tr.calls.head? = some e1 → e1.heapIn = h ++ [v]) ∧
    (∀ i e1 e2, tr.calls.get? i = some e1 → tr.calls.get? (i + 1) = some e2 →
      e2.heapIn = e1.heapOut) ∧
    (∀ tr2 r2 h3, callUnblockedComponentH componentsH componentInputsH dom clsId compId
        (some hs) h2 = Except.ok (tr2, r2, h3) →
      tr2.allocs = [h2.length] ∧ ¬(h2.length = h.length)) := by
  obtain ⟨p1, p2, p3, p4, p5, p6⟩ := callUnblockedComponentH_spec componentsH
    componentInputsH dom clsId compId hs v fns h tr r h2 hcomp hinp hexec
  refine ⟨p1, p2, p3, p4, p5, ?_⟩
  intro tr2 r2 h3 hex2
  obtain ⟨q1, -, -, -, -, -⟩ := callUnblockedComponentH_spec componentsH
    componentInputsH dom clsId compId hs v fns h2 tr2 r2 h3 hcomp hinp hex2
  refine ⟨q1, ?_⟩
  rw [p6]
  exact Nat.succ_ne_self h.length

/-- Witness for C10: the concrete two-callback activation over the empty
heap allocates object 0 once, runs both callbacks, and grows the heap to
length 1. -/
theorem c10_single_factory_shared_object_witness :
    c10tr.allocs = [0] ∧ c10tr.calls.length = 2 :=
  let spec := c10_single_factory_shared_object c10comps c10inputs ["i1"]
    "t" "i1" "h1" 7 [c10fn1, c10fn2] [] c10tr 42 [42] rfl rfl rfl
  ⟨spec.1, spec.2.1⟩

end DjcManager